import Mathlib

/-! # adx2wav: a shallow embedding of the ADX block decoder and of the converter's driver

Source: `src/adx2wav.go`.

Conventions of the embedding.

* A byte is a `Fin 256`; a Go slice is a `List`, and an access outside the slice
  (a run-time panic in Go) makes the enclosing function return `none`.
* Go's `int` is 32 or 64 bits wide depending on the platform (`IntSize`); every
  `int` operation of the source (`*`, `+`, `-`) is followed by the two's-complement
  wrap-around `wrapInt`.  `>>` on a signed `int` is the arithmetic shift `Int.shiftRight`.
* An `int16` is an `Int` obtained through `toInt16` (wrap-around to 16 bits).
-/

namespace Adx2wav

set_option maxRecDepth 100000

/-! ## Machine integers -/

/-- A byte of a Go `[]byte`. -/
abbrev Byte := Fin 256

/-- The two widths Go allows for the platform type `int`. -/
inductive IntSize where
  | w32
  | w64
  deriving DecidableEq, Repr

/-- Number of bits of an `int` of the given size. -/
def IntSize.bits : IntSize → Nat
  | .w32 => 32
  | .w64 => 64

/-- Two's-complement wrap-around of an integer into the signed `w`-bit range. -/
def wrapSigned (w : Nat) (x : Int) : Int :=
  (x + 2 ^ (w - 1)) % 2 ^ w - 2 ^ (w - 1)

/-- The value an `int` computation leaves in a Go `int` of the given size. -/
def wrapInt (sz : IntSize) (x : Int) : Int :=
  wrapSigned sz.bits x

/-- The Go conversion `int16(x)`. -/
def toInt16 (x : Int) : Int :=
  wrapSigned 16 x

/-- Membership in the range of a Go `int` of the given size. -/
def fitsInt (sz : IntSize) (x : Int) : Prop :=
  -(2 : Int) ^ (sz.bits - 1) ≤ x ∧ x < (2 : Int) ^ (sz.bits - 1)

instance (sz : IntSize) (x : Int) : Decidable (fitsInt sz x) := by
  unfold fitsInt; infer_instance

/-! ## `prevSample`, `clip`, `adx2pcm` -/

/-- The Go struct `prevSample`: the two previous samples of one channel. -/
structure prevSample where
  s1 : Int
  s2 : Int
  deriving DecidableEq, Repr

/-- The Go function `clip`. -/
def clip (val min max : Int) : Int :=
  if val < min then min
  else if val > max then max
  else val

/-- The bytes-to-integer conversion `binary.BigEndian.Uint16`. -/
def beUint16 (b0 b1 : Byte) : Nat :=
  b0.val * 256 + b1.val

/-- The two source lines `if d&8 != 0 { d -= 16 }`, for a nibble `d` already widened
to `int`. -/
def signExtend4 (d : Nat) : Int :=
  if d &&& 8 ≠ 0 then (d : Int) - 16 else (d : Int)

/-- The source expression `clip(d*scale + ((coef1*s1 + coef2*s2) >> 12), -32768, 32767)`
over Go `int`s of size `sz`. -/
def decodeSample (sz : IntSize) (scale coef1 coef2 s1 s2 d : Int) : Int :=
  clip
    (wrapInt sz
      (wrapInt sz (d * scale)
        + ((wrapInt sz (wrapInt sz (coef1 * s1) + wrapInt sz (coef2 * s2))) >>> (12 : Nat))))
    (-32768) 32767

/-- The slice store `out[i] = v`; `none` is the index-out-of-range panic. -/
def setAt (out : List Int) (i : Nat) (v : Int) : Option (List Int) :=
  if i < out.length then some (out.set i v) else none

/-- The loop `for i := 0; i < 16; i++ { ... }` of `adx2pcm`: the first numeric argument
counts the iterations still to run, the second is `i`.  `adxData` is the slice after
`adxData = adxData[2:]`. -/
def adx2pcmLoop (sz : IntSize) (scale coef1 coef2 : Int) (adxData : List Byte) :
    Nat → Nat → List Int → Int → Int → Option (List Int × Int × Int)
  | 0, _, out, s1, s2 => some (out, s1, s2)
  | n + 1, i, out, s1, s2 =>
    match adxData[i]? with
    | none => none
    | some b =>
      let s0 := decodeSample sz scale coef1 coef2 s1 s2 (signExtend4 (b.val >>> 4))
      match setAt out (i * 2) (toInt16 s0) with
      | none => none
      | some out1 =>
        let s0' := decodeSample sz scale coef1 coef2 s0 s1 (signExtend4 (b.val &&& 15))
        match setAt out1 (i * 2 + 1) (toInt16 s0') with
        | none => none
        | some out2 => adx2pcmLoop sz scale coef1 coef2 adxData n (i + 1) out2 s0' s0

/-- The Go function `adx2pcm`.  The slice `out` and the state `*prev` are updated in
place in the source; here the updated values are returned.  `none` is a panic. -/
def adx2pcm (sz : IntSize) (out : List Int) (adxData : List Byte) (prev : prevSample)
    (coef1 coef2 : Int) : Option (List Int × prevSample) :=
  match adxData[0]?, adxData[1]? with
  | some b0, some b1 =>
    let scale : Int := (beUint16 b0 b1 : Int) + 1
    match adx2pcmLoop sz scale coef1 coef2 (adxData.drop 2) 16 0 out prev.s1 prev.s2 with
    | none => none
    | some (out', s1, s2) => some (out', { s1 := s1, s2 := s2 })
  | _, _ => none

/-! ## The reference recurrence of the block decoder, in the words of the specification -/

/-- Sign extension of a 4-bit two's-complement nibble: `0..7` are kept, `8..15` become
`-8..-1`. -/
def signext4 (n : Nat) : Int :=
  if n ≤ 7 then (n : Int) else (n : Int) - 16

/-- The scale of a block: `(256*B[0] + B[1]) + 1`. -/
def refScale (B : List Byte) : Int :=
  (256 * ((B.getD 0 0).val : Int) + ((B.getD 1 0).val : Int)) + 1

/-- The delta `d_k`: the sign-extended high nibble of `B[2 + k/2]` when `k` is even, the
sign-extended low nibble of that byte when `k` is odd. -/
def refDelta (B : List Byte) (k : Nat) : Int :=
  if k % 2 = 0 then signext4 ((B.getD (2 + k / 2) 0).val / 16)
  else signext4 ((B.getD (2 + k / 2) 0).val % 16)

/-- The reference value `clip(d*scale + floor((coef1*h1 + coef2*h2) / 4096), -32768, 32767)`
over the mathematical integers; `Int.fdiv` rounds towards minus infinity. -/
def refSample (scale coef1 coef2 h1 h2 d : Int) : Int :=
  clip (d * scale + Int.fdiv (coef1 * h1 + coef2 * h2) 4096) (-32768) 32767

/-- The history `(h1, h2)` of the reference recurrence before sample `k`: the given state
for `k = 0`; afterwards `h2` is the old `h1` and `h1` is the sample just produced. -/
def refHist (B : List Byte) (s1 s2 coef1 coef2 : Int) : Nat → Int × Int
  | 0 => (s1, s2)
  | k + 1 =>
    let h := refHist B s1 s2 coef1 coef2 k
    (refSample (refScale B) coef1 coef2 h.1 h.2 (refDelta B k), h.1)

/-- The `k`-th sample `out[k]` of the reference recurrence. -/
def refOut (B : List Byte) (s1 s2 coef1 coef2 : Int) (k : Nat) : Int :=
  (refHist B s1 s2 coef1 coef2 (k + 1)).1

/-! ## The sample sequence computed by `adx2pcm`, sample by sample -/

/-- The delta the loop of `adx2pcm` extracts for sample `k` from the block `adxData`
(before the re-slicing `adxData[2:]`): from byte `2 + k/2`, `>> 4` for the store to
`out[i*2]` and `& 15` for the store to `out[i*2+1]`. -/
def codeDelta (adxData : List Byte) (k : Nat) : Int :=
  if k % 2 = 0 then signExtend4 ((adxData.getD (2 + k / 2) 0).val >>> 4)
  else signExtend4 ((adxData.getD (2 + k / 2) 0).val &&& 15)

/-- The scale `adx2pcm` computes: `int(binary.BigEndian.Uint16(adxData[0:2])) + 1`. -/
def codeScale (adxData : List Byte) : Int :=
  (beUint16 (adxData.getD 0 0) (adxData.getD 1 0) : Int) + 1

/-- The pair `(s1, s2)` held by the loop of `adx2pcm` after `k` samples. -/
def codeHist (sz : IntSize) (adxData : List Byte) (prev : prevSample) (coef1 coef2 : Int) :
    Nat → Int × Int
  | 0 => (prev.s1, prev.s2)
  | k + 1 =>
    let h := codeHist sz adxData prev coef1 coef2 k
    (decodeSample sz (codeScale adxData) coef1 coef2 h.1 h.2 (codeDelta adxData k), h.1)

/-- The `k`-th value stored by `adx2pcm` before its conversion to `int16`. -/
def codeOut (sz : IntSize) (adxData : List Byte) (prev : prevSample) (coef1 coef2 : Int)
    (k : Nat) : Int :=
  (codeHist sz adxData prev coef1 coef2 (k + 1)).1

/-! ## Files and byte encodings used by `main` -/

/-- The bytes-to-integer conversion `binary.BigEndian.Uint32`. -/
def beUint32 (b0 b1 b2 b3 : Byte) : Nat :=
  ((b0.val * 256 + b1.val) * 256 + b2.val) * 256 + b3.val

/-- The call `in.Read(p)` on a regular file with contents `file`, at position `pos`, for
a slice `p` of length `n > 0`: at or past the end of the file it fails (`io.EOF`,
`none`); otherwise it delivers the bytes from `pos` on, at most `n` of them. -/
def fileRead (file : List Byte) (pos n : Nat) : Option (List Byte) :=
  if pos < file.length then some ((file.drop pos).take n) else none

/-- The contents of a slice after a read delivered `got` into its front: the bytes past
the delivered ones keep their old value. -/
def fillBuf (buf got : List Byte) : List Byte :=
  got ++ buf.drop got.length

/-- Little-endian bytes of a 16-bit value (`binary.Write` of a `uint16`, or of an `int16`
through its two's-complement residue). -/
def le16 (v : Int) : List Byte :=
  [Fin.ofNat (v % 65536).toNat, Fin.ofNat ((v % 65536).toNat / 256)]

/-- Little-endian bytes of a `uint32`. -/
def le32 (v : Nat) : List Byte :=
  [Fin.ofNat v, Fin.ofNat (v / 256), Fin.ofNat (v / 65536), Fin.ofNat (v / 16777216)]

/-- The bytes `binary.Write(out, binary.LittleEndian, samples)` appends for a `[]int16`. -/
def encodeSamples (samples : List Int) : List Byte :=
  samples.flatMap le16

/-- The six bytes of the string literal `"(c)CRI"`. -/
def criText : List Byte :=
  [0x28, 0x63, 0x29, 0x43, 0x52, 0x49]

/-! ## The header fields read by `main` -/

/-- The four `int` variables `main` fills from the 16-byte header. -/
structure adxHeader where
  channels : Int
  freq : Int
  size : Int
  offset : Int
  deriving DecidableEq, Repr

/-- Lines 114-118 of `main`: `channels`, `freq`, `size`, `offset` from the 16-byte slice
`header`; the conversions `int(...)` wrap on a 32-bit `int`. -/
def parseHeader (sz : IntSize) (header : List Byte) : adxHeader :=
  { channels := wrapInt sz (header.getD 7 0).val
    freq := wrapInt sz
      (beUint32 (header.getD 8 0) (header.getD 9 0) (header.getD 10 0) (header.getD 11 0))
    size := wrapInt sz
      (beUint32 (header.getD 12 0) (header.getD 13 0) (header.getD 14 0) (header.getD 15 0))
    offset := wrapInt sz (wrapInt sz (beUint16 (header.getD 2 0) (header.getD 3 0)) - 2) }

/-- Lines 123-134 of `main` after a successful seek: `sig := make([]byte, 7)`, the read
into `sig[1:]` delivering `got`, and `sig[0] = 0x80`. -/
def buildSig (got : List Byte) : List Byte :=
  ((0 : Byte) :: fillBuf (List.replicate 6 0) got).set 0 0x80

/-- The test of line 136, `sig[0] != 0x80 || string(sig[1:]) != "(c)CRI"`. -/
def sigInvalid (sig : List Byte) : Bool :=
  sig.getD 0 0 != 0x80 || sig.drop 1 != criText

/-! ## The WAV header -/

/-- The Go struct `wavHeader`; the unsigned fields hold naturals below `2^16` or `2^32`. -/
structure wavHeader where
  Riff : List Byte
  Size : Nat
  Wave : List Byte
  Fmt : List Byte
  FmtSize : Nat
  Format : Nat
  Channels : Nat
  SampleRate : Nat
  ByteRate : Nat
  BlockAlign : Nat
  BitsPerSample : Nat
  Data : List Byte
  DataSize : Nat
  deriving DecidableEq, Repr

/-- The Go conversion `uint16(x)` of an `int`. -/
def toUint16 (x : Int) : Nat :=
  (x % 65536).toNat

/-- The Go conversion `uint32(x)` of an `int`. -/
def toUint32 (x : Int) : Nat :=
  (x % 4294967296).toNat

/-- Lines 161-175 of `main`: the header value built from `channels`, `freq` and `size`,
with the wrap-around of the `uint16` and `uint32` products and sums;
`binary.Size(wavHdr)` is 44. -/
def mkWavHeader (channels freq size : Int) : wavHeader :=
  let bitsPerSample : Nat := 16
  let blockAlign : Nat := (toUint16 channels * (bitsPerSample / 8)) % 65536
  let dataSize : Nat := (toUint32 size * blockAlign) % 4294967296
  { Riff := [0x52, 0x49, 0x46, 0x46]
    Wave := [0x57, 0x41, 0x56, 0x45]
    Fmt := [0x66, 0x6d, 0x74, 0x20]
    Data := [0x64, 0x61, 0x74, 0x61]
    FmtSize := 16
    Format := 1
    Channels := toUint16 channels
    SampleRate := toUint32 freq
    BitsPerSample := bitsPerSample
    BlockAlign := blockAlign
    ByteRate := (toUint32 freq * blockAlign) % 4294967296
    DataSize := dataSize
    Size := (dataSize + 44 + (4294967296 - 8)) % 4294967296 }

/-- The bytes `binary.Write(out, binary.LittleEndian, &wavHdr)` emits: the fields in
declaration order, little-endian, without padding. -/
def encodeWavHeader (h : wavHeader) : List Byte :=
  h.Riff ++ le32 h.Size ++ h.Wave ++ h.Fmt ++ le32 h.FmtSize ++ le16 h.Format
    ++ le16 h.Channels ++ le32 h.SampleRate ++ le32 h.ByteRate ++ le16 h.BlockAlign
    ++ le16 h.BitsPerSample ++ h.Data ++ le32 h.DataSize

/-- The unsigned value of a little-endian byte sequence, as a reader of the WAV file
decodes a field. -/
def leValue : List Byte → Nat
  | [] => 0
  | b :: bs => b.val + 256 * leValue bs

/-! ## The decode loop of `main` -/

/-- The slice expression `s[:n]` for an `int` bound `n`; `none` is the bounds panic. -/
def sliceTo (s : List Int) (n : Int) : Option (List Int) :=
  if 0 ≤ n ∧ n.toNat ≤ s.length then some (s.take n.toNat) else none

/-- The loop `for i := 0; i < 32; i++ { outbuf[i*2] = tmpbuf[i]; outbuf[i*2+1] = tmpbuf[i+32] }`
of the stereo branch: the first numeric argument counts the iterations still to run, the
second is `i`. -/
def interleaveLoop (tmpbuf : List Int) : Nat → Nat → List Int → Option (List Int)
  | 0, _, outbuf => some outbuf
  | n + 1, i, outbuf =>
    match tmpbuf[i]? with
    | none => none
    | some l =>
      match setAt outbuf (i * 2) l with
      | none => none
      | some o1 =>
        match tmpbuf[i + 32]? with
        | none => none
        | some r =>
          match setAt o1 (i * 2 + 1) r with
          | none => none
          | some o2 => interleaveLoop tmpbuf n (i + 1) o2

/-- What one pass through lines 206-228 leaves behind: the slice handed to
`binary.Write`, the buffer `outbuf` and the two predictor states. -/
structure blockResult where
  forwarded : List Int
  outbuf : List Int
  prev0 : prevSample
  prev1 : prevSample
  deriving DecidableEq, Repr

/-- Lines 206-228 of `main`, the body of the decode loop after the read and after
`wsize` has been set: the mono branch decodes into `outbuf[:wsize*2]` and writes that
slice; the stereo branch decodes both sub-blocks into a fresh `tmpbuf`, interleaves into
`outbuf` and writes `outbuf[:wsize*2]`.  `none` is a panic. -/
def decodeBlock (sz : IntSize) (channels wsize : Int) (buf : List Byte) (outbuf : List Int)
    (prev0 prev1 : prevSample) (coef1 coef2 : Int) : Option blockResult :=
  if channels = 1 then
    match sliceTo outbuf (wrapInt sz (wsize * 2)) with
    | none => none
    | some out =>
      match adx2pcm sz out buf prev0 coef1 coef2 with
      | none => none
      | some (out', p0) =>
        let outbuf' := out' ++ outbuf.drop out.length
        match sliceTo outbuf' (wrapInt sz (wsize * 2)) with
        | none => none
        | some fw =>
          some { forwarded := fw, outbuf := outbuf', prev0 := p0, prev1 := prev1 }
  else
    let tmpbuf : List Int := List.replicate 64 0
    match adx2pcm sz (tmpbuf.take 32) buf prev0 coef1 coef2 with
    | none => none
    | some (t1, p0) =>
      let tmpbuf1 := t1 ++ tmpbuf.drop 32
      if buf.length < 18 then none
      else
        match adx2pcm sz (tmpbuf1.drop 32) (buf.drop 18) prev1 coef1 coef2 with
        | none => none
        | some (t2, p1) =>
          let tmpbuf2 := tmpbuf1.take 32 ++ t2
          match interleaveLoop tmpbuf2 32 0 outbuf with
          | none => none
          | some outbuf' =>
            match sliceTo outbuf' (wrapInt sz (wsize * 2)) with
            | none => none
            | some fw =>
              some { forwarded := fw, outbuf := outbuf', prev0 := p0, prev1 := p1 }

/-- How a run of `main` ends: the final message, or a run-time panic. -/
inductive Status where
  | done
  | errReadHeader
  | errSeek
  | errReadSig
  | invalidADX
  | errReadData
  | panicked
  deriving DecidableEq, Repr

/-- The result of a run: how it ended, and the bytes of the output file (`none` when
`os.Create` was never reached). -/
structure Outcome where
  status : Status
  output : Option (List Byte)
  deriving DecidableEq, Repr

/-- The variables the decode loop carries from one iteration to the next. -/
structure loopState where
  pos : Nat
  buf : List Byte
  outbuf : List Int
  prev0 : prevSample
  prev1 : prevSample
  size : Int
  output : List Byte
  deriving DecidableEq, Repr

/-- The `wsize` of lines 201-204. -/
def blockWsize (size : Int) : Int :=
  if size < 32 then size else 32

/-- The loop `for size > 0 { ... }` of lines 194-231 on the input file `file`.  The first
numeric argument bounds the number of iterations; `none` means the bound was too small. -/
def mainLoop (sz : IntSize) (file : List Byte) (channels coef1 coef2 : Int) :
    Nat → loopState → Option Outcome
  | 0, st =>
    if st.size > 0 then none else some { status := .done, output := some st.output }
  | fuel + 1, st =>
    if st.size > 0 then
      match fileRead file st.pos st.buf.length with
      | none => some { status := .errReadData, output := some st.output }
      | some got =>
        let buf := fillBuf st.buf got
        let wsize := blockWsize st.size
        match decodeBlock sz channels wsize buf st.outbuf st.prev0 st.prev1 coef1 coef2 with
        | none => some { status := .panicked, output := some st.output }
        | some r =>
          mainLoop sz file channels coef1 coef2 fuel
            { pos := st.pos + got.length
              buf := buf
              outbuf := r.outbuf
              prev0 := r.prev0
              prev1 := r.prev1
              size := wrapInt sz (st.size - wsize)
              output := st.output ++ encodeSamples r.forwarded }
    else some { status := .done, output := some st.output }

/-- The Go function `main` from line 107 on, as a function of the contents `file` of the
input file (which opened) to the result of the run.  The output file is taken to be
created and written without error.  The coefficient computation of lines 151-158 is
floating-point code; it enters as the function `coefs` from `freq` to `(coef1, coef2)`. -/
def main (sz : IntSize) (coefs : Int → Int × Int) (file : List Byte) : Option Outcome :=
  match fileRead file 0 16 with
  | none => some { status := .errReadHeader, output := none }
  | some got =>
    let hdr := parseHeader sz (fillBuf (List.replicate 16 0) got)
    if hdr.offset < 0 then some { status := .errSeek, output := none }
    else
      match fileRead file hdr.offset.toNat 6 with
      | none => some { status := .errReadSig, output := none }
      | some got6 =>
        if sigInvalid (buildSig got6) then some { status := .invalidADX, output := none }
        else
          let coef := coefs hdr.freq
          mainLoop sz file hdr.channels coef.1 coef.2 hdr.size.toNat
            { pos := hdr.offset.toNat + got6.length
              buf := List.replicate (if hdr.channels = 1 then 18 else 36) 0
              outbuf := List.replicate 64 0
              prev0 := { s1 := 0, s2 := 0 }
              prev1 := { s1 := 0, s2 := 0 }
              size := hdr.size
              output := encodeWavHeader (mkWavHeader hdr.channels hdr.freq hdr.size) }

/-- The decode loop `mainLoop` with two ghost values: the number of calls `in.Read(buf)`
made so far, and the value of `size` at the point where the loop stops. -/
def mainLoopCount (sz : IntSize) (file : List Byte) (channels coef1 coef2 : Int) :
    Nat → loopState → Nat → Option (Status × Nat × Int)
  | 0, st, reads => if st.size > 0 then none else some (.done, reads, st.size)
  | fuel + 1, st, reads =>
    if st.size > 0 then
      match fileRead file st.pos st.buf.length with
      | none => some (.errReadData, reads + 1, st.size)
      | some got =>
        let buf := fillBuf st.buf got
        let wsize := blockWsize st.size
        match decodeBlock sz channels wsize buf st.outbuf st.prev0 st.prev1 coef1 coef2 with
        | none => some (.panicked, reads + 1, st.size)
        | some r =>
          mainLoopCount sz file channels coef1 coef2 fuel
            { pos := st.pos + got.length
              buf := buf
              outbuf := r.outbuf
              prev0 := r.prev0
              prev1 := r.prev1
              size := wrapInt sz (st.size - wsize)
              output := st.output ++ encodeSamples r.forwarded }
            (reads + 1)
    else some (.done, reads, st.size)

/-! ## The coefficient computation of `main`, over the real numbers -/

/-- Line 153, `z := math.Cos(2.0 * math.Pi * x / y)` with `x = 500.0` and
`y = float64(freq)`, read over the real numbers instead of `float64`. -/
noncomputable def coefZ (freq : Int) : ℝ :=
  Real.cos (2 * Real.pi * 500 / (freq : ℝ))

/-- Line 154, `a := math.Sqrt2 - z`, over the real numbers. -/
noncomputable def coefA (freq : Int) : ℝ :=
  Real.sqrt 2 - coefZ freq

/-- Line 155, `b := math.Sqrt2 - 1.0`, over the real numbers. -/
noncomputable def coefB : ℝ :=
  Real.sqrt 2 - 1

/-- Line 156, `c := (a - math.Sqrt((a+b)*(a-b))) / b`, over the real numbers. -/
noncomputable def coefC (freq : Int) : ℝ :=
  (coefA freq - Real.sqrt ((coefA freq + coefB) * (coefA freq - coefB))) / coefB

/-- Line 157, `coef1 := int(math.Floor(8192.0 * c))`, over the real numbers. -/
noncomputable def realCoef1 (freq : Int) : Int :=
  ⌊8192 * coefC freq⌋

/-- Line 158, `coef2 := int(math.Floor(-4096.0 * c * c))`, over the real numbers. -/
noncomputable def realCoef2 (freq : Int) : Int :=
  ⌊-4096 * coefC freq * coefC freq⌋

/-! ## Concrete inputs -/

/-- A block with scale bytes `0, 0` (scale 1) whose data bytes are `0x17, 0x8f` followed
by zeros. -/
def sampleBlock : List Byte :=
  [0, 0, 0x17, 0x8f, 0, 0, 0, 0, 0, 0, 0, 0, 0, 0, 0, 0, 0, 0]

/-- A block with scale bytes `0, 0` whose only non-zero nibble is the last one, `2`. -/
def lastNibbleBlock : List Byte :=
  [0, 0, 0, 0, 0, 0, 0, 0, 0, 0, 0, 0, 0, 0, 0, 0, 0, 2]

/-- A mono block with scale factor 1 (scale bytes `0, 0`) and all-zero nibbles. -/
def zeroBlock : List Byte :=
  List.replicate 18 0

/-- A 36-byte stereo chunk: `sampleBlock` for the left channel, then a right sub-block
with scale bytes `0, 9`. -/
def stereoChunk : List Byte :=
  sampleBlock ++ [0, 9, 0x7f, 0x80, 0x12, 0x34, 0, 0, 0, 0, 0, 0, 0, 0, 0, 0, 0xff, 0x01]

/-- An input file: a 16-byte header for `channels` channels, 44100 Hz and `size` samples
with raw offset 20, two filler bytes, the text `(c)CRI` at position 18, then `blocks`. -/
def adxFile (channels size : Byte) (blocks : List Byte) : List Byte :=
  [0x80, 0, 0, 0x14, 3, 0x12, 4, channels, 0, 0, 0xAC, 0x44, 0, 0, 0, size, 0, 0]
    ++ criText ++ blocks

/-- Stand-in for the floating-point coefficient computation: the pair for 44100 Hz. -/
def fixedCoefs : Int → Int × Int :=
  fun _ => (7334, -3284)

/-- An input file like `adxFile` for one channel and 32 samples, but with the text
`(c)CRI` one byte further on, at positions 19 to 24, behind a byte `0x80` at position 18. -/
def shiftedSigFile : List Byte :=
  [0x80, 0, 0, 0x14, 3, 0x12, 4, 1, 0, 0, 0xAC, 0x44, 0, 0, 0, 32, 0, 0, 0x80]
    ++ criText ++ sampleBlock

/-- A 16-byte header whose sample-rate field is `0x80000000`. -/
def bigRateHeader : List Byte :=
  [0x80, 0, 0, 0x14, 3, 0x12, 4, 1, 0x80, 0, 0, 0, 0, 0, 0, 32]

/-- An input file like `adxFile` for one channel and 32 samples in which the `R` of the
text `(c)CRI` is replaced by `r`. -/
def corruptSigFile : List Byte :=
  [0x80, 0, 0, 0x14, 3, 0x12, 4, 1, 0, 0, 0xAC, 0x44, 0, 0, 0, 32, 0, 0,
    0x28, 0x63, 0x29, 0x43, 0x72, 0x49] ++ sampleBlock

/-- An input file with channel count byte 3, 32 samples and one 36-byte chunk. -/
def threeChannelFile : List Byte :=
  adxFile 3 32 stereoChunk

/-- A stereo input file of 33 samples with two 36-byte chunks. -/
def stereoFile : List Byte :=
  adxFile 2 33 (stereoChunk ++ stereoChunk)

/-- The bytes of the output file of the run on `stereoFile`. -/
def stereoFileOutput : List Byte :=
  ((main .w64 fixedCoefs stereoFile).bind fun o => o.output).getD []

/-- A stereo input file whose total-sample-count field is `0x80000000`. -/
def hugeCountFile : List Byte :=
  [0x80, 0, 0, 0x14, 3, 0x12, 4, 2, 0, 0, 0xAC, 0x44, 0x80, 0, 0, 0, 0, 0]
    ++ criText ++ stereoChunk

/-- A mono input file of 37 samples with two 18-byte blocks. -/
def monoTailFile : List Byte :=
  adxFile 1 37 (sampleBlock ++ zeroBlock)

/-! # Theorems -/

/-! ## The loop of `adx2pcm` computes the sample sequence `codeOut` -/

theorem setAt_some (out : List Int) (i : Nat) (v : Int) (h : i < out.length) :
    setAt out i v = some (out.set i v) := by
  simp [setAt, h]

theorem codeHist_succ (sz : IntSize) (B : List Byte) (prev : prevSample) (c1 c2 : Int) (k : Nat) :
    codeHist sz B prev c1 c2 (k + 1)
      = (codeOut sz B prev c1 c2 k, (codeHist sz B prev c1 c2 k).1) := by
  simp [codeOut, codeHist]

theorem codeOut_eq (sz : IntSize) (B : List Byte) (prev : prevSample) (c1 c2 : Int) (k : Nat) :
    codeOut sz B prev c1 c2 k
      = decodeSample sz (codeScale B) c1 c2 (codeHist sz B prev c1 c2 k).1
          (codeHist sz B prev c1 c2 k).2 (codeDelta B k) := by
  simp [codeOut, codeHist]

theorem codeDelta_even (B : List Byte) (i : Nat) :
    codeDelta B (2 * i) = signExtend4 ((B.getD (2 + i) 0).val >>> 4) := by
  simp [codeDelta]

theorem codeDelta_odd (B : List Byte) (i : Nat) :
    codeDelta B (2 * i + 1) = signExtend4 ((B.getD (2 + i) 0).val &&& 15) := by
  have h1 : (2 * i + 1) % 2 = 1 := by omega
  have h2 : (2 * i + 1) / 2 = i := by omega
  simp [codeDelta, h1, h2]

theorem adx2pcmLoop_spec (sz : IntSize) (B : List Byte) (prev : prevSample) (c1 c2 : Int)
    (hB : 18 ≤ B.length) :
    ∀ (n i : Nat) (out : List Int) (s1 s2 : Int), i + n ≤ 16 → 2 * (i + n) ≤ out.length →
      (s1, s2) = codeHist sz B prev c1 c2 (2 * i) →
      ∃ out', adx2pcmLoop sz (codeScale B) c1 c2 (B.drop 2) n i out s1 s2
          = some (out', (codeHist sz B prev c1 c2 (2 * (i + n))).1,
              (codeHist sz B prev c1 c2 (2 * (i + n))).2)
        ∧ out'.length = out.length
        ∧ ∀ k, out'[k]? = if 2 * i ≤ k ∧ k < 2 * (i + n)
            then some (toInt16 (codeOut sz B prev c1 c2 k)) else out[k]? := by
  intro n
  induction n with
  | zero =>
    intro i out s1 s2 _ _ hs
    refine ⟨out, ?_, rfl, ?_⟩
    · simp [adx2pcmLoop, ← hs]
    · intro k
      have : ¬ (2 * i ≤ k ∧ k < 2 * (i + 0)) := by omega
      rw [if_neg this]
  | succ n ih =>
    intro i out s1 s2 hi hout hs
    have hget : (B.drop 2)[i]? = some (B.getD (2 + i) 0) := by
      have hlt : 2 + i < B.length := by omega
      simp [List.getD, List.getElem?_drop, List.getElem?_eq_getElem hlt]
    have hs1 : (codeHist sz B prev c1 c2 (2 * i)).1 = s1 := by rw [← hs]
    have hs2 : (codeHist sz B prev c1 c2 (2 * i)).2 = s2 := by rw [← hs]
    have e0 : decodeSample sz (codeScale B) c1 c2 s1 s2
        (signExtend4 ((B.getD (2 + i) 0).val >>> 4)) = codeOut sz B prev c1 c2 (2 * i) := by
      rw [codeOut_eq, codeDelta_even, hs1, hs2]
    have e1 : decodeSample sz (codeScale B) c1 c2 (codeOut sz B prev c1 c2 (2 * i)) s1
        (signExtend4 ((B.getD (2 + i) 0).val &&& 15)) = codeOut sz B prev c1 c2 (2 * i + 1) := by
      rw [codeOut_eq (k := 2 * i + 1), codeDelta_odd, codeHist_succ, hs1]
    have hst : (codeOut sz B prev c1 c2 (2 * i + 1), codeOut sz B prev c1 c2 (2 * i))
        = codeHist sz B prev c1 c2 (2 * (i + 1)) := by
      have : 2 * (i + 1) = (2 * i + 1) + 1 := by ring
      rw [this, codeHist_succ, codeHist_succ]
    have hl1 : i * 2 < out.length := by omega
    have hl2 : i * 2 + 1 < (out.set (i * 2) (toInt16 (codeOut sz B prev c1 c2 (2 * i)))).length := by
      simp; omega
    obtain ⟨out', hrun, hlen, hk⟩ := ih (i + 1)
      ((out.set (i * 2) (toInt16 (codeOut sz B prev c1 c2 (2 * i)))).set (i * 2 + 1)
        (toInt16 (codeOut sz B prev c1 c2 (2 * i + 1))))
      (codeOut sz B prev c1 c2 (2 * i + 1)) (codeOut sz B prev c1 c2 (2 * i))
      (by omega) (by simp; omega) hst
    refine ⟨out', ?_, ?_, ?_⟩
    · have hidx : i + 1 + n = i + (n + 1) := by omega
      rw [hidx] at hrun
      simp only [adx2pcmLoop, hget, e0, e1, setAt_some _ _ _ hl1, setAt_some _ _ _ hl2]
      exact hrun
    · simpa using hlen
    · intro k
      rw [hk k]
      by_cases hk1 : 2 * (i + 1) ≤ k ∧ k < 2 * (i + 1 + n)
      · have : 2 * i ≤ k ∧ k < 2 * (i + (n + 1)) := by omega
        simp [hk1, this]
      · by_cases hk2 : k = i * 2
        · subst hk2
          have : 2 * i ≤ i * 2 ∧ i * 2 < 2 * (i + (n + 1)) := by omega
          have e : 2 * i = i * 2 := by omega
          simp [hk1, this, List.getElem?_set, hl1, e]
        · by_cases hk3 : k = i * 2 + 1
          · subst hk3
            have : 2 * i ≤ i * 2 + 1 ∧ i * 2 + 1 < 2 * (i + (n + 1)) := by omega
            have e : 2 * i = i * 2 := by omega
            have hl3 : i * 2 + 1 < out.length := by omega
            simp [hk1, this, List.getElem?_set, hl3, e]
          · have : ¬ (2 * i ≤ k ∧ k < 2 * (i + (n + 1))) := by omega
            have n1 : ¬ (i * 2 + 1 = k) := by omega
            have n2 : ¬ (i * 2 = k) := by omega
            simp [hk1, this, List.getElem?_set, n1, n2]

theorem clip_ge (v : Int) : -32768 ≤ clip v (-32768) 32767 := by
  unfold clip; split_ifs <;> omega

theorem clip_le (v : Int) : clip v (-32768) 32767 ≤ 32767 := by
  unfold clip; split_ifs <;> omega

theorem toInt16_of_range (x : Int) (h1 : -32768 ≤ x) (h2 : x ≤ 32767) : toInt16 x = x := by
  simp only [toInt16, wrapSigned]
  norm_num
  omega

theorem toInt16_clip (v : Int) : toInt16 (clip v (-32768) 32767) = clip v (-32768) 32767 :=
  toInt16_of_range _ (clip_ge v) (clip_le v)

theorem codeOut_ge (sz : IntSize) (B : List Byte) (prev : prevSample) (c1 c2 : Int) (k : Nat) :
    -32768 ≤ codeOut sz B prev c1 c2 k := by
  rw [codeOut_eq]; exact clip_ge _

theorem codeOut_le (sz : IntSize) (B : List Byte) (prev : prevSample) (c1 c2 : Int) (k : Nat) :
    codeOut sz B prev c1 c2 k ≤ 32767 := by
  rw [codeOut_eq]; exact clip_le _

theorem adx2pcm_spec (sz : IntSize) (out : List Int) (B : List Byte) (prev : prevSample)
    (c1 c2 : Int) (hB : 18 ≤ B.length) (hout : 32 ≤ out.length) :
    ∃ out', adx2pcm sz out B prev c1 c2
        = some (out', { s1 := codeOut sz B prev c1 c2 31, s2 := codeOut sz B prev c1 c2 30 })
      ∧ out'.length = out.length
      ∧ ∀ k, out'[k]? = if k < 32 then some (codeOut sz B prev c1 c2 k) else out[k]? := by
  obtain ⟨out', hrun, hlen, hk⟩ := adx2pcmLoop_spec sz B prev c1 c2 hB 16 0 out prev.s1 prev.s2
    (by omega) (by omega) (by simp [codeHist])
  refine ⟨out', ?_, hlen, ?_⟩
  · have h0 : B[0]? = some (B.getD 0 0) := by
      have : 0 < B.length := by omega
      simp [List.getD, List.getElem?_eq_getElem this]
    have h1 : B[1]? = some (B.getD 1 0) := by
      have : 1 < B.length := by omega
      simp [List.getD, List.getElem?_eq_getElem this]
    have hsc : (beUint16 (B.getD 0 0) (B.getD 1 0) : Int) + 1 = codeScale B := rfl
    have e32 : 2 * (0 + 16) = 31 + 1 := by norm_num
    rw [e32, codeHist_succ] at hrun
    have e31 : (codeHist sz B prev c1 c2 31).1 = codeOut sz B prev c1 c2 30 := by
      rw [codeHist_succ]
    simp only [adx2pcm, h0, h1, hsc, hrun, e31]
  · intro k
    rw [hk k]
    by_cases h : k < 32
    · have : 2 * 0 ≤ k ∧ k < 2 * (0 + 16) := by omega
      rw [if_pos this, if_pos h, toInt16_of_range _ (codeOut_ge ..) (codeOut_le ..)]
    · have : ¬ (2 * 0 ≤ k ∧ k < 2 * (0 + 16)) := by omega
      rw [if_neg this, if_neg h]

/-! ## Wrapped arithmetic against the reference recurrence -/

theorem nibble_hi (b : Byte) : signExtend4 (b.val >>> 4) = signext4 (b.val / 16) := by
  revert b; decide

theorem nibble_lo (b : Byte) : signExtend4 (b.val &&& 15) = signext4 (b.val % 16) := by
  revert b; decide

theorem codeDelta_eq_refDelta (B : List Byte) (k : Nat) : codeDelta B k = refDelta B k := by
  unfold codeDelta refDelta
  rw [nibble_hi, nibble_lo]

theorem signext4_bounds (n : Nat) (h : n < 16) : -8 ≤ signext4 n ∧ signext4 n ≤ 7 := by
  unfold signext4; split_ifs <;> omega

theorem refDelta_bounds (B : List Byte) (k : Nat) : -8 ≤ refDelta B k ∧ refDelta B k ≤ 7 := by
  unfold refDelta
  split_ifs
  · exact signext4_bounds _ (by have := (B.getD (2 + k / 2) 0).isLt; omega)
  · exact signext4_bounds _ (by omega)

theorem codeScale_eq_refScale (B : List Byte) : codeScale B = refScale B := by
  simp only [codeScale, refScale, beUint16]
  push_cast
  ring

theorem refScale_bounds (B : List Byte) : 1 ≤ refScale B ∧ refScale B ≤ 65536 := by
  have h0 := (B.getD 0 0).isLt
  have h1 := (B.getD 1 0).isLt
  simp only [refScale]
  omega

theorem delta_scale_bounds (d scale : Int) (hd : -8 ≤ d ∧ d ≤ 7) (hs : 1 ≤ scale ∧ scale ≤ 65536) :
    -524288 ≤ d * scale ∧ d * scale ≤ 524288 := by
  constructor <;> nlinarith

/-- The floor division `Int.fdiv` of the reference recurrence is the floor of the rational
quotient. -/
theorem fdiv_4096_eq_floor (x : Int) : Int.fdiv x 4096 = ⌊(x : ℚ) / 4096⌋ := by
  rw [Int.fdiv_eq_ediv _ (by norm_num : (0 : Int) ≤ 4096)]
  have := Rat.floor_intCast_div_natCast x 4096
  simpa using this.symm

/-- The arithmetic shift `>> 12` of the source is the floor of the quotient by 4096, for
negative operands too. -/
theorem shiftRight_12_eq_floor (x : Int) : x >>> (12 : Nat) = ⌊(x : ℚ) / 4096⌋ := by
  rw [Int.shiftRight_eq_div_pow, ← fdiv_4096_eq_floor,
    Int.fdiv_eq_ediv _ (by norm_num : (0 : Int) ≤ 4096)]
  norm_num

/-- When the exact accumulator fits an `int`, the wrapped arithmetic of the source
agrees with the reference value over the integers. -/
theorem decodeSample_eq_refSample (sz : IntSize) (scale c1 c2 h1 h2 d : Int)
    (hd : -8 ≤ d ∧ d ≤ 7) (hs : 1 ≤ scale ∧ scale ≤ 65536)
    (hacc : fitsInt sz (c1 * h1 + c2 * h2)) :
    decodeSample sz scale c1 c2 h1 h2 d = refSample scale c1 c2 h1 h2 d := by
  obtain ⟨hds1, hds2⟩ := delta_scale_bounds d scale hd hs
  unfold decodeSample refSample
  congr 1
  rw [Int.fdiv_eq_ediv _ (by norm_num : (0 : Int) ≤ 4096), Int.shiftRight_eq_div_pow]
  generalize c1 * h1 = p1 at *
  generalize c2 * h2 = p2 at *
  generalize d * scale = ds at *
  cases sz <;> simp only [wrapInt, wrapSigned, fitsInt, IntSize.bits] at * <;> norm_num at * <;> omega

theorem acc_fits (sz : IntSize) (c1 c2 h1 h2 M : Int) (hh1 : |h1| ≤ M) (hh2 : |h2| ≤ M)
    (hc : (|c1| + |c2|) * M < 2 ^ (sz.bits - 1)) : fitsInt sz (c1 * h1 + c2 * h2) := by
  have e1 : |c1 * h1| ≤ |c1| * M := by
    rw [abs_mul]; exact mul_le_mul_of_nonneg_left hh1 (abs_nonneg c1)
  have e2 : |c2 * h2| ≤ |c2| * M := by
    rw [abs_mul]; exact mul_le_mul_of_nonneg_left hh2 (abs_nonneg c2)
  have e3 : |c1 * h1 + c2 * h2| < 2 ^ (sz.bits - 1) := by
    calc |c1 * h1 + c2 * h2| ≤ |c1 * h1| + |c2 * h2| := abs_add _ _
      _ ≤ |c1| * M + |c2| * M := add_le_add e1 e2
      _ = (|c1| + |c2|) * M := by ring
      _ < 2 ^ (sz.bits - 1) := hc
  rw [abs_lt] at e3
  exact ⟨le_of_lt e3.1, e3.2⟩

theorem abs_clip_le (v : Int) : |clip v (-32768) 32767| ≤ 32768 := by
  rw [abs_le]; exact ⟨clip_ge v, by have := clip_le v; omega⟩

theorem codeHist_eq_refHist (sz : IntSize) (B : List Byte) (s1 s2 c1 c2 : Int)
    (hc : (|c1| + |c2|) * max (max |s1| |s2|) 32768 < 2 ^ (sz.bits - 1)) (k : Nat) :
    codeHist sz B { s1 := s1, s2 := s2 } c1 c2 k = refHist B s1 s2 c1 c2 k
      ∧ |(refHist B s1 s2 c1 c2 k).1| ≤ max (max |s1| |s2|) 32768
      ∧ |(refHist B s1 s2 c1 c2 k).2| ≤ max (max |s1| |s2|) 32768 := by
  induction k with
  | zero =>
    refine ⟨rfl, ?_, ?_⟩
    · exact le_max_of_le_left (le_max_left _ _)
    · exact le_max_of_le_left (le_max_right _ _)
  | succ k ih =>
    obtain ⟨ih0, ih1, ih2⟩ := ih
    have hstep : decodeSample sz (codeScale B) c1 c2 (refHist B s1 s2 c1 c2 k).1
        (refHist B s1 s2 c1 c2 k).2 (codeDelta B k)
        = refSample (refScale B) c1 c2 (refHist B s1 s2 c1 c2 k).1
            (refHist B s1 s2 c1 c2 k).2 (refDelta B k) := by
      rw [codeScale_eq_refScale, codeDelta_eq_refDelta]
      exact decodeSample_eq_refSample sz _ c1 c2 _ _ _ (refDelta_bounds B k) (refScale_bounds B)
        (acc_fits sz c1 c2 _ _ _ ih1 ih2 hc)
    refine ⟨?_, ?_, ?_⟩
    · simp only [codeHist, refHist, ih0, hstep]
    · simp only [refHist, refSample]
      exact le_trans (abs_clip_le _) (le_max_right _ _)
    · simpa only [refHist] using ih1

theorem codeOut_eq_refOut (sz : IntSize) (B : List Byte) (s1 s2 c1 c2 : Int)
    (hc : (|c1| + |c2|) * max (max |s1| |s2|) 32768 < 2 ^ (sz.bits - 1)) (k : Nat) :
    codeOut sz B { s1 := s1, s2 := s2 } c1 c2 k = refOut B s1 s2 c1 c2 k := by
  unfold codeOut refOut
  rw [(codeHist_eq_refHist sz B s1 s2 c1 c2 hc (k + 1)).1]

/-- C1 (amended): for every 18-byte block `B`, every state `(s1, s2)` and every coefficient
pair with `(|coef1| + |coef2|) * max(|s1|, |s2|, 32768) < 2^(w-1)`, where `w` is the width
of `int`, `adx2pcm` succeeds, writes exactly the entries `out[0..31]` and leaves the other
entries of `out` alone, and `out[k]` is the `k`-th sample of the reference recurrence
(floor division by 4096, clipped history). -/
theorem adx2pcm_matches_reference (sz : IntSize) (out : List Int) (B : List Byte)
    (s1 s2 coef1 coef2 : Int) (hB : B.length = 18) (hout : 32 ≤ out.length)
    (hc : (|coef1| + |coef2|) * max (max |s1| |s2|) 32768 < 2 ^ (sz.bits - 1)) :
    ∃ out' prev', adx2pcm sz out B { s1 := s1, s2 := s2 } coef1 coef2 = some (out', prev')
      ∧ out'.length = out.length
      ∧ (∀ k, k < 32 → out'[k]? = some (refOut B s1 s2 coef1 coef2 k))
      ∧ (∀ k, 32 ≤ k → out'[k]? = out[k]?) := by
  obtain ⟨out', hrun, hlen, hk⟩ :=
    adx2pcm_spec sz out B { s1 := s1, s2 := s2 } coef1 coef2 (by omega) hout
  refine ⟨out', _, hrun, hlen, ?_, ?_⟩
  · intro k hk32
    rw [hk k, if_pos hk32, codeOut_eq_refOut sz B s1 s2 coef1 coef2 hc k]
  · intro k hk32
    rw [hk k, if_neg (by omega)]

theorem adx2pcm_matches_reference_witness :
    ∃ out' prev', adx2pcm .w64 (List.replicate 32 0) sampleBlock { s1 := 100000, s2 := -70000 }
        7000 (-3000) = some (out', prev')
      ∧ out'.length = (List.replicate 32 (0 : Int)).length
      ∧ (∀ k, k < 32 → out'[k]? = some (refOut sampleBlock 100000 (-70000) 7000 (-3000) k))
      ∧ (∀ k, 32 ≤ k → out'[k]? = (List.replicate 32 (0 : Int))[k]?) :=
  adx2pcm_matches_reference .w64 (List.replicate 32 0) sampleBlock 100000 (-70000) 7000 (-3000)
    (by decide) (by decide) (by decide)

/-- C1 as stated fails: with `coef1 = 2^62`, `coef2 = 0` and state `(2, 0)` on a 64-bit
`int` the product `coef1*s1 = 2^63` wraps to `-2^63`, so `adx2pcm` stores `-32768` in
`out[0]` where the reference recurrence gives `32767`; on a 32-bit `int` the same happens
with `coef1 = 2^30`. -/
theorem adx2pcm_reference_overflow :
    (∃ out' prev', adx2pcm .w64 (List.replicate 32 0) sampleBlock { s1 := 2, s2 := 0 }
        (2 ^ 62) 0 = some (out', prev')
      ∧ out'[0]? = some (-32768) ∧ refOut sampleBlock 2 0 (2 ^ 62) 0 0 = 32767)
    ∧ (∃ out' prev', adx2pcm .w32 (List.replicate 32 0) sampleBlock { s1 := 2, s2 := 0 }
        (2 ^ 30) 0 = some (out', prev')
      ∧ out'[0]? = some (-32768) ∧ refOut sampleBlock 2 0 (2 ^ 30) 0 0 = 32767) := by
  refine ⟨⟨_, _, rfl, ?_, ?_⟩, ⟨_, _, rfl, ?_, ?_⟩⟩ <;> decide

/-- C2: for every 18-byte block, every initial predictor state and every coefficient pair,
`adx2pcm` succeeds and each of the 32 entries it stores is the clipped value `codeOut`,
which lies in `[-32768, 32767]` and is left unchanged by the conversion to `int16`. -/
theorem adx2pcm_samples_in_range (sz : IntSize) (out : List Int) (B : List Byte)
    (prev : prevSample) (coef1 coef2 : Int) (hB : B.length = 18) (hout : 32 ≤ out.length) :
    ∃ out' prev', adx2pcm sz out B prev coef1 coef2 = some (out', prev')
      ∧ ∀ k, k < 32 →
          out'[k]? = some (codeOut sz B prev coef1 coef2 k)
          ∧ toInt16 (codeOut sz B prev coef1 coef2 k) = codeOut sz B prev coef1 coef2 k
          ∧ -32768 ≤ codeOut sz B prev coef1 coef2 k
          ∧ codeOut sz B prev coef1 coef2 k ≤ 32767 := by
  obtain ⟨out', hrun, _, hk⟩ := adx2pcm_spec sz out B prev coef1 coef2 (by omega) hout
  refine ⟨out', _, hrun, ?_⟩
  intro k hk32
  refine ⟨?_, toInt16_of_range _ (codeOut_ge ..) (codeOut_le ..), codeOut_ge .., codeOut_le ..⟩
  rw [hk k, if_pos hk32]

theorem adx2pcm_samples_in_range_witness :
    ∃ out' prev', adx2pcm .w32 (List.replicate 32 0) sampleBlock
        { s1 := 2000000000, s2 := -2000000000 } 2000000000 (-2000000000) = some (out', prev')
      ∧ ∀ k, k < 32 →
          out'[k]? = some (codeOut .w32 sampleBlock { s1 := 2000000000, s2 := -2000000000 }
            2000000000 (-2000000000) k)
          ∧ toInt16 (codeOut .w32 sampleBlock { s1 := 2000000000, s2 := -2000000000 }
              2000000000 (-2000000000) k)
            = codeOut .w32 sampleBlock { s1 := 2000000000, s2 := -2000000000 }
              2000000000 (-2000000000) k
          ∧ -32768 ≤ codeOut .w32 sampleBlock { s1 := 2000000000, s2 := -2000000000 }
              2000000000 (-2000000000) k
          ∧ codeOut .w32 sampleBlock { s1 := 2000000000, s2 := -2000000000 }
              2000000000 (-2000000000) k ≤ 32767 :=
  adx2pcm_samples_in_range .w32 (List.replicate 32 0) sampleBlock
    { s1 := 2000000000, s2 := -2000000000 } 2000000000 (-2000000000) (by decide) (by decide)

theorem refDelta_zero (B : List Byte) : refDelta B 0 = signext4 ((B.getD 2 0).val / 16) := by
  simp [refDelta]

/-- C3 (amended): for every pair of 18-byte blocks decoded in sequence, any initial state
and coefficients with `(|coef1| + |coef2|) * 32768 < 2^(w-1)` (`w` the width of `int`),
the state left by the first call is `(x31, x30)`, the last two entries stored for the
first block, and the first entry stored for the second block is
`clip(d0*scale2 + floor((coef1*x31 + coef2*x30) / 4096), -32768, 32767)`. -/
theorem adx2pcm_state_carry (sz : IntSize) (out1 out2 : List Int) (B1 B2 : List Byte)
    (prev : prevSample) (coef1 coef2 : Int) (hB1 : B1.length = 18) (hB2 : B2.length = 18)
    (hout1 : 32 ≤ out1.length) (hout2 : 32 ≤ out2.length)
    (hc : (|coef1| + |coef2|) * 32768 < 2 ^ (sz.bits - 1)) :
    ∃ o1 p1 o2 p2, adx2pcm sz out1 B1 prev coef1 coef2 = some (o1, p1)
      ∧ o1[31]? = some p1.s1 ∧ o1[30]? = some p1.s2
      ∧ adx2pcm sz out2 B2 p1 coef1 coef2 = some (o2, p2)
      ∧ o2[0]? = some (clip (signext4 ((B2.getD 2 0).val / 16) * refScale B2
          + Int.fdiv (coef1 * p1.s1 + coef2 * p1.s2) 4096) (-32768) 32767) := by
  obtain ⟨o1, hrun1, _, hk1⟩ := adx2pcm_spec sz out1 B1 prev coef1 coef2 (by omega) hout1
  obtain ⟨o2, hrun2, _, hk2⟩ := adx2pcm_spec sz out2 B2
    { s1 := codeOut sz B1 prev coef1 coef2 31, s2 := codeOut sz B1 prev coef1 coef2 30 }
    coef1 coef2 (by omega) hout2
  refine ⟨o1, _, o2, _, hrun1, ?_, ?_, hrun2, ?_⟩
  · rw [hk1 31, if_pos (by norm_num)]
  · rw [hk1 30, if_pos (by norm_num)]
  · have ha1 : |codeOut sz B1 prev coef1 coef2 31| ≤ 32768 := by
      rw [codeOut_eq]; exact abs_clip_le _
    have ha2 : |codeOut sz B1 prev coef1 coef2 30| ≤ 32768 := by
      rw [codeOut_eq]; exact abs_clip_le _
    rw [hk2 0, if_pos (by norm_num), codeOut_eq]
    simp only [codeHist]
    rw [codeScale_eq_refScale, codeDelta_eq_refDelta,
      decodeSample_eq_refSample sz _ coef1 coef2 _ _ _ (refDelta_bounds B2 0) (refScale_bounds B2)
        (acc_fits sz coef1 coef2 _ _ 32768 ha1 ha2 hc), refDelta_zero]
    rfl

theorem adx2pcm_state_carry_witness :
    ∃ o1 p1 o2 p2, adx2pcm .w64 (List.replicate 32 0) lastNibbleBlock { s1 := 90000, s2 := -5 }
        7000 (-3000) = some (o1, p1)
      ∧ o1[31]? = some p1.s1 ∧ o1[30]? = some p1.s2
      ∧ adx2pcm .w64 (List.replicate 32 0) sampleBlock p1 7000 (-3000) = some (o2, p2)
      ∧ o2[0]? = some (clip (signext4 ((sampleBlock.getD 2 0).val / 16) * refScale sampleBlock
          + Int.fdiv (7000 * p1.s1 + (-3000) * p1.s2) 4096) (-32768) 32767) :=
  adx2pcm_state_carry .w64 (List.replicate 32 0) (List.replicate 32 0) lastNibbleBlock sampleBlock
    { s1 := 90000, s2 := -5 } 7000 (-3000) (by decide) (by decide) (by decide) (by decide)
    (by decide)

/-- C3 as stated fails for large coefficients: after `lastNibbleBlock` from state `(0, 0)`
with `coef1 = 2^62`, `coef2 = 0` on a 64-bit `int` the state is `(x31, x30) = (2, 0)`;
the first entry stored for the next block is `-32768`, while
`clip(d0*scale2 + floor((coef1*x31 + coef2*x30) / 4096), -32768, 32767) = 32767`. -/
theorem adx2pcm_state_carry_overflow :
    ∃ o1 o2 p2, adx2pcm .w64 (List.replicate 32 0) lastNibbleBlock { s1 := 0, s2 := 0 }
        (2 ^ 62) 0 = some (o1, { s1 := 2, s2 := 0 })
      ∧ o1[31]? = some 2 ∧ o1[30]? = some 0
      ∧ adx2pcm .w64 (List.replicate 32 0) sampleBlock { s1 := 2, s2 := 0 } (2 ^ 62) 0
          = some (o2, p2)
      ∧ o2[0]? = some (-32768)
      ∧ clip (signext4 ((sampleBlock.getD 2 0).val / 16) * refScale sampleBlock
          + Int.fdiv (2 ^ 62 * 2 + 0 * 0) 4096) (-32768) 32767 = 32767 := by
  refine ⟨_, _, _, rfl, ?_, ?_, rfl, ?_, ?_⟩ <;> decide

theorem wrapInt_zero (sz : IntSize) : wrapInt sz 0 = 0 := by
  cases sz <;> decide

theorem decodeSample_zero (sz : IntSize) (scale c1 c2 : Int) :
    decodeSample sz scale c1 c2 0 0 0 = 0 := by
  simp [decodeSample, wrapInt_zero, clip]

theorem getD_data_zero (B : List Byte) (hz : ∀ b ∈ B.drop 2, b = 0) (j : Nat) :
    B.getD (2 + j) 0 = 0 := by
  by_cases h : 2 + j < B.length
  · have hj : j < (B.drop 2).length := by simp; omega
    have hm : (B.drop 2)[j] ∈ B.drop 2 := List.getElem_mem hj
    have := hz _ hm
    simp only [List.getElem_drop] at this
    simp [List.getD, List.getElem?_eq_getElem h, this]
  · simp [List.getD, List.getElem?_eq_none (by omega : B.length ≤ 2 + j)]

theorem codeDelta_zero (B : List Byte) (hz : ∀ b ∈ B.drop 2, b = 0) (k : Nat) :
    codeDelta B k = 0 := by
  unfold codeDelta
  rw [getD_data_zero B hz]
  split_ifs <;> decide

theorem codeHist_zero (sz : IntSize) (B : List Byte) (c1 c2 : Int)
    (hz : ∀ b ∈ B.drop 2, b = 0) (k : Nat) :
    codeHist sz B { s1 := 0, s2 := 0 } c1 c2 k = (0, 0) := by
  induction k with
  | zero => rfl
  | succ k ih => simp only [codeHist, ih, codeDelta_zero B hz, decodeSample_zero]

/-- C4: for every 18-byte block whose 16 data bytes are all zero, whatever its scale
factor and whatever the coefficients, `adx2pcm` from predictor state `(0, 0)` stores 0 in
all 32 entries and leaves the state `(0, 0)`. -/
theorem adx2pcm_zero_block (sz : IntSize) (out : List Int) (B : List Byte)
    (coef1 coef2 : Int) (hB : B.length = 18) (hout : 32 ≤ out.length)
    (hz : ∀ b ∈ B.drop 2, b = 0) :
    ∃ out', adx2pcm sz out B { s1 := 0, s2 := 0 } coef1 coef2
        = some (out', { s1 := 0, s2 := 0 })
      ∧ ∀ k, k < 32 → out'[k]? = some 0 := by
  have hco : ∀ k, codeOut sz B { s1 := 0, s2 := 0 } coef1 coef2 k = 0 := by
    intro k
    simp only [codeOut, codeHist_zero sz B coef1 coef2 hz (k + 1)]
  obtain ⟨out', hrun, _, hk⟩ :=
    adx2pcm_spec sz out B { s1 := 0, s2 := 0 } coef1 coef2 (by omega) hout
  rw [hco 31, hco 30] at hrun
  refine ⟨out', hrun, ?_⟩
  intro k hk32
  rw [hk k, if_pos hk32, hco k]

theorem adx2pcm_zero_block_witness :
    ∃ out', adx2pcm .w64 (List.replicate 32 7) zeroBlock { s1 := 0, s2 := 0 } 7334 (-3283)
        = some (out', { s1 := 0, s2 := 0 })
      ∧ ∀ k, k < 32 → out'[k]? = some 0 :=
  adx2pcm_zero_block .w64 (List.replicate 32 7) zeroBlock 7334 (-3283) (by decide) (by decide)
    (by decide)

/-! ## The loop body of `main` -/

theorem interleaveLoop_spec (tmpbuf : List Int) (ht : 64 ≤ tmpbuf.length) :
    ∀ (n i : Nat) (outbuf : List Int), i + n ≤ 32 → 2 * (i + n) ≤ outbuf.length →
      ∃ o', interleaveLoop tmpbuf n i outbuf = some o'
        ∧ o'.length = outbuf.length
        ∧ ∀ k, o'[k]? = if 2 * i ≤ k ∧ k < 2 * (i + n)
            then (if k % 2 = 0 then tmpbuf[k / 2]? else tmpbuf[k / 2 + 32]?) else outbuf[k]? := by
  intro n
  induction n with
  | zero =>
    intro i outbuf _ _
    refine ⟨outbuf, rfl, rfl, ?_⟩
    intro k
    have : ¬ (2 * i ≤ k ∧ k < 2 * (i + 0)) := by omega
    rw [if_neg this]
  | succ n ih =>
    intro i outbuf hi hout
    have hl : i < tmpbuf.length := by omega
    have hr : i + 32 < tmpbuf.length := by omega
    have hl1 : i * 2 < outbuf.length := by omega
    have hl2 : i * 2 + 1 < (outbuf.set (i * 2) tmpbuf[i]).length := by simp; omega
    obtain ⟨o', hrun, hlen, hk⟩ := ih (i + 1)
      ((outbuf.set (i * 2) tmpbuf[i]).set (i * 2 + 1) tmpbuf[i + 32]) (by omega) (by simp; omega)
    refine ⟨o', ?_, ?_, ?_⟩
    · simp only [interleaveLoop, List.getElem?_eq_getElem hl, List.getElem?_eq_getElem hr,
        setAt_some _ _ _ hl1, setAt_some _ _ _ hl2]
      exact hrun
    · simpa using hlen
    · intro k
      rw [hk k]
      by_cases hk1 : 2 * (i + 1) ≤ k ∧ k < 2 * (i + 1 + n)
      · have : 2 * i ≤ k ∧ k < 2 * (i + (n + 1)) := by omega
        simp [hk1, this]
      · by_cases hk2 : k = i * 2
        · subst hk2
          have : 2 * i ≤ i * 2 ∧ i * 2 < 2 * (i + (n + 1)) := by omega
          simp [hk1, this, List.getElem?_set, hl1, List.getElem?_eq_getElem hl]
        · by_cases hk3 : k = i * 2 + 1
          · subst hk3
            have : 2 * i ≤ i * 2 + 1 ∧ i * 2 + 1 < 2 * (i + (n + 1)) := by omega
            have hl3 : i * 2 + 1 < outbuf.length := by omega
            have e1 : (i * 2 + 1) % 2 = 1 := by omega
            have e2 : (i * 2 + 1) / 2 = i := by omega
            simp [hk1, this, List.getElem?_set, hl3, e1, e2, List.getElem?_eq_getElem hr]
          · have : ¬ (2 * i ≤ k ∧ k < 2 * (i + (n + 1))) := by omega
            have n1 : ¬ (i * 2 + 1 = k) := by omega
            have n2 : ¬ (i * 2 = k) := by omega
            simp [hk1, this, List.getElem?_set, n1, n2]

theorem codeHist_congr (sz : IntSize) (B B' : List Byte) (prev : prevSample) (c1 c2 : Int)
    (h : ∀ i, i < 18 → B.getD i 0 = B'.getD i 0) (k : Nat) (hk : k ≤ 32) :
    codeHist sz B prev c1 c2 k = codeHist sz B' prev c1 c2 k := by
  induction k with
  | zero => rfl
  | succ k ih =>
    have hd : codeDelta B k = codeDelta B' k := by
      unfold codeDelta
      rw [h (2 + k / 2) (by omega)]
    have hs : codeScale B = codeScale B' := by
      unfold codeScale
      rw [h 0 (by omega), h 1 (by omega)]
    simp only [codeHist, ih (by omega), hd, hs]

theorem codeOut_congr (sz : IntSize) (B B' : List Byte) (prev : prevSample) (c1 c2 : Int)
    (h : ∀ i, i < 18 → B.getD i 0 = B'.getD i 0) (k : Nat) (hk : k < 32) :
    codeOut sz B prev c1 c2 k = codeOut sz B' prev c1 c2 k := by
  unfold codeOut
  rw [codeHist_congr sz B B' prev c1 c2 h (k + 1) (by omega)]

theorem getD_take18 (buf : List Byte) (i : Nat) (hi : i < 18) :
    buf.getD i 0 = (buf.take 18).getD i 0 := by
  simp [List.getD, List.getElem?_take, hi]

theorem wrapInt_small (sz : IntSize) (x : Int) (h1 : -2147483648 ≤ x) (h2 : x < 2147483648) :
    wrapInt sz x = x := by
  cases sz <;> simp only [wrapInt, wrapSigned, IntSize.bits] <;> norm_num <;> omega

theorem blockWsize_eq (size : Int) (h : 0 < size) :
    blockWsize size = ((min 32 size.toNat : Nat) : Int) := by
  unfold blockWsize
  split_ifs <;> omega

theorem sliceTo_wsize (sz : IntSize) (s : List Int) (size : Int) (h : 0 < size)
    (hs : 64 ≤ s.length) :
    sliceTo s (wrapInt sz (blockWsize size * 2)) = some (s.take (2 * min 32 size.toNat)) := by
  rw [blockWsize_eq size h, wrapInt_small sz _ (by omega) (by omega)]
  have e : (((min 32 size.toNat : Nat) : Int) * 2).toNat = 2 * min 32 size.toNat := by omega
  have c : 0 ≤ ((min 32 size.toNat : Nat) : Int) * 2
      ∧ (((min 32 size.toNat : Nat) : Int) * 2).toNat ≤ s.length := by
    rw [e]; omega
  rw [sliceTo, if_pos c, e]

/-- C5: in the stereo branch, for every 36-byte chunk and `r = min(32, remaining)`, the
slice handed to the writer has length `2r` and holds `L0,R0,...,L(r-1),R(r-1)`, where
`L` (with state `pL`) is the decode of chunk bytes 0..17 from channel 0's state and `R`
(with state `pR`) the decode of chunk bytes 18..35 from channel 1's state; the states
left are `pL` and `pR`. -/
theorem decodeBlock_stereo_interleaved (sz : IntSize) (channels size : Int) (buf : List Byte)
    (outbuf : List Int) (prev0 prev1 : prevSample) (coef1 coef2 : Int)
    (hch : channels ≠ 1) (hbuf : buf.length = 36) (hout : outbuf.length = 64)
    (hsize : 0 < size) :
    ∃ L pL R pR res,
      adx2pcm sz (List.replicate 32 0) (buf.take 18) prev0 coef1 coef2 = some (L, pL)
      ∧ adx2pcm sz (List.replicate 32 0) (buf.drop 18) prev1 coef1 coef2 = some (R, pR)
      ∧ L.length = 32 ∧ R.length = 32
      ∧ decodeBlock sz channels (blockWsize size) buf outbuf prev0 prev1 coef1 coef2 = some res
      ∧ res.forwarded.length = 2 * min 32 size.toNat
      ∧ (∀ i, i < min 32 size.toNat →
          res.forwarded[2 * i]? = L[i]? ∧ res.forwarded[2 * i + 1]? = R[i]?)
      ∧ res.prev0 = pL ∧ res.prev1 = pR := by
  -- the two reference decodes
  obtain ⟨L, hL, hLlen, hLk⟩ := adx2pcm_spec sz (List.replicate 32 0) (buf.take 18) prev0
    coef1 coef2 (by simp; omega) (by simp)
  obtain ⟨R, hR, hRlen, hRk⟩ := adx2pcm_spec sz (List.replicate 32 0) (buf.drop 18) prev1
    coef1 coef2 (by simp; omega) (by simp)
  -- the two decodes of the source, into `tmpbuf`
  obtain ⟨t1, ht1, ht1len, ht1k⟩ := adx2pcm_spec sz ((List.replicate 64 (0 : Int)).take 32) buf
    prev0 coef1 coef2 (by omega) (by simp)
  have ht1len' : t1.length = 32 := by simpa using ht1len
  have hdrop : (t1 ++ (List.replicate 64 (0 : Int)).drop 32).drop 32
      = (List.replicate 64 (0 : Int)).drop 32 := by
    rw [List.drop_append_of_le_length (by omega), List.drop_of_length_le (by omega)]
    rfl
  have htake : (t1 ++ (List.replicate 64 (0 : Int)).drop 32).take 32 = t1 := by
    rw [List.take_append_of_le_length (by omega), List.take_of_length_le (by omega)]
  obtain ⟨t2, ht2, ht2len, ht2k⟩ := adx2pcm_spec sz ((List.replicate 64 (0 : Int)).drop 32)
    (buf.drop 18) prev1 coef1 coef2 (by simp; omega) (by simp)
  have ht2len' : t2.length = 32 := by simpa using ht2len
  obtain ⟨o', ho', ho'len, ho'k⟩ := interleaveLoop_spec (t1 ++ t2) (by simp; omega) 32 0 outbuf
    (by omega) (by omega)
  have hslice := sliceTo_wsize sz o' size hsize (by omega)
  have hcong0 : ∀ k, k < 32 →
      codeOut sz buf prev0 coef1 coef2 k = codeOut sz (buf.take 18) prev0 coef1 coef2 k :=
    fun k hk => codeOut_congr sz buf (buf.take 18) prev0 coef1 coef2
      (fun i hi => getD_take18 buf i hi) k hk
  refine ⟨L, _, R, _,
    { forwarded := o'.take (2 * min 32 size.toNat)
      outbuf := o'
      prev0 := { s1 := codeOut sz buf prev0 coef1 coef2 31,
                 s2 := codeOut sz buf prev0 coef1 coef2 30 }
      prev1 := { s1 := codeOut sz (buf.drop 18) prev1 coef1 coef2 31,
                 s2 := codeOut sz (buf.drop 18) prev1 coef1 coef2 30 } },
    hL, hR, by simpa using hLlen, by simpa using hRlen, ?_, ?_, ?_, ?_, ?_⟩
  · have hlt : ¬ buf.length < 18 := by omega
    simp only [decodeBlock, if_neg hch, ht1, hdrop, htake, ht2, ho', hslice, if_neg hlt]
  · simp only [List.length_take]; omega
  · intro i hi
    have hi32 : i < 32 := by omega
    have e1 : (2 * i + 1) % 2 = 1 := by omega
    have e2 : (2 * i + 1) / 2 = i := by omega
    have c0 : 2 * 0 ≤ 2 * i ∧ 2 * i < 2 * (0 + 32) := by omega
    have c1 : 2 * 0 ≤ 2 * i + 1 ∧ 2 * i + 1 < 2 * (0 + 32) := by omega
    constructor
    · rw [List.getElem?_take_of_lt (by omega), ho'k, if_pos c0]
      simp only [Nat.mul_mod_right, if_true, Nat.mul_div_cancel_left i (by norm_num : 0 < 2)]
      rw [List.getElem?_append_left (by omega), ht1k, hLk, if_pos hi32, if_pos hi32,
        hcong0 i hi32]
    · rw [List.getElem?_take_of_lt (by omega), ho'k, if_pos c1]
      simp only [e1, e2, one_ne_zero, if_false]
      rw [List.getElem?_append_right (by omega), ht1len']
      simp only [Nat.add_sub_cancel]
      rw [ht2k, hRk, if_pos hi32, if_pos hi32]
  · rw [hcong0 31 (by norm_num), hcong0 30 (by norm_num)]
  · rfl

theorem decodeBlock_stereo_interleaved_witness :
    ∃ L pL R pR res,
      adx2pcm .w64 (List.replicate 32 0) (stereoChunk.take 18) { s1 := 5, s2 := -7 } 7334 (-3283)
        = some (L, pL)
      ∧ adx2pcm .w64 (List.replicate 32 0) (stereoChunk.drop 18) { s1 := 0, s2 := 9 } 7334 (-3283)
        = some (R, pR)
      ∧ L.length = 32 ∧ R.length = 32
      ∧ decodeBlock .w64 2 (blockWsize 5) stereoChunk (List.replicate 64 0) { s1 := 5, s2 := -7 }
          { s1 := 0, s2 := 9 } 7334 (-3283) = some res
      ∧ res.forwarded.length = 2 * min 32 (5 : Int).toNat
      ∧ (∀ i, i < min 32 (5 : Int).toNat →
          res.forwarded[2 * i]? = L[i]? ∧ res.forwarded[2 * i + 1]? = R[i]?)
      ∧ res.prev0 = pL ∧ res.prev1 = pR :=
  decodeBlock_stereo_interleaved .w64 2 5 stereoChunk (List.replicate 64 0) { s1 := 5, s2 := -7 }
    { s1 := 0, s2 := 9 } 7334 (-3283) (by decide) (by decide) (by decide) (by decide)

/-- C6 fails on the code: in the mono branch a full block (`remaining = 32`) hands
`outbuf[:64]` to the writer, the 32 decoded samples followed by the 32 never-written
zero entries of `outbuf`, and a final block with `remaining = 20` hands over 40 entries;
a mono file of 32 samples ends with 44 + 128 bytes where its header declares 64 data
bytes. -/
theorem decodeBlock_mono_forwards_double :
    ∃ L pL res res',
      adx2pcm .w64 (List.replicate 32 0) sampleBlock { s1 := 0, s2 := 0 } 7334 (-3283)
        = some (L, pL)
      ∧ L.length = 32
      ∧ decodeBlock .w64 1 (blockWsize 32) sampleBlock (List.replicate 64 0) { s1 := 0, s2 := 0 }
          { s1 := 0, s2 := 0 } 7334 (-3283) = some res
      ∧ res.forwarded = L ++ List.replicate 32 0
      ∧ res.forwarded.length = 64
      ∧ decodeBlock .w64 1 (blockWsize 20) sampleBlock (List.replicate 64 0) { s1 := 0, s2 := 0 }
          { s1 := 0, s2 := 0 } 7334 (-3283) = some res'
      ∧ res'.forwarded = L ++ List.replicate 8 0
      ∧ (∃ bytes, main .w64 fixedCoefs (adxFile 1 32 sampleBlock)
            = some { status := .done, output := some bytes }
          ∧ bytes.length = 44 + 128
          ∧ (mkWavHeader 1 44100 32).DataSize = 64) := by
  refine ⟨_, _, _, _, rfl, ?_, rfl, ?_, ?_, rfl, ?_, ⟨_, rfl, ?_, ?_⟩⟩ <;> decide

/-- C7 fails on the code: in the mono branch a final block with `remaining = 5` hands the
10-entry slice `outbuf[:10]` to `adx2pcm`, whose store to `out[10]` is out of range; the
run of `main` on such a file panics after the WAV header.  From `remaining = 16` on the
mono slice has 32 entries and the decode completes, as it does in the stereo branch. -/
theorem decodeBlock_mono_short_final_panics :
    sliceTo (List.replicate 64 0) (wrapInt .w64 (blockWsize 5 * 2)) = some (List.replicate 10 0)
    ∧ adx2pcm .w64 (List.replicate 10 0) sampleBlock { s1 := 0, s2 := 0 } 7334 (-3283) = none
    ∧ decodeBlock .w64 1 (blockWsize 5) sampleBlock (List.replicate 64 0) { s1 := 0, s2 := 0 }
        { s1 := 0, s2 := 0 } 7334 (-3283) = none
    ∧ decodeBlock .w64 1 (blockWsize 15) sampleBlock (List.replicate 64 0) { s1 := 0, s2 := 0 }
        { s1 := 0, s2 := 0 } 7334 (-3283) = none
    ∧ (decodeBlock .w64 1 (blockWsize 16) sampleBlock (List.replicate 64 0) { s1 := 0, s2 := 0 }
        { s1 := 0, s2 := 0 } 7334 (-3283)).isSome = true
    ∧ main .w64 fixedCoefs (adxFile 1 5 sampleBlock)
        = some { status := .panicked,
                 output := some (encodeWavHeader (mkWavHeader 1 44100 5)) } := by
  refine ⟨?_, ?_, ?_, ?_, ?_, ?_⟩ <;> decide

/-! ## The driver `main` -/

theorem wrapInt_le_self (sz : IntSize) (x : Int) (h : 0 ≤ x) : wrapInt sz x ≤ x := by
  cases sz <;> simp only [wrapInt, wrapSigned, IntSize.bits] <;> norm_num <;> omega

theorem blockWsize_bounds (size : Int) (h : 0 < size) :
    1 ≤ blockWsize size ∧ blockWsize size ≤ size := by
  unfold blockWsize
  split_ifs <;> omega

/-- With at least `size` iterations allowed the decode loop runs to its end, and it ends
with the `Done!` message, a read error or a panic, the output file being there. -/
theorem mainLoop_total (sz : IntSize) (file : List Byte) (channels c1 c2 : Int) :
    ∀ (fuel : Nat) (st : loopState), st.size ≤ fuel →
      ∃ o, mainLoop sz file channels c1 c2 fuel st = some o
        ∧ o.output.isSome = true
        ∧ (o.status = .done ∨ o.status = .errReadData ∨ o.status = .panicked) := by
  intro fuel
  induction fuel with
  | zero =>
    intro st hst
    have : ¬ st.size > 0 := by simpa using hst
    simp only [mainLoop, if_neg this]
    exact ⟨_, rfl, rfl, Or.inl rfl⟩
  | succ fuel ih =>
    intro st hst
    by_cases hpos : st.size > 0
    · simp only [mainLoop, if_pos hpos]
      cases hr : fileRead file st.pos st.buf.length with
      | none => exact ⟨_, rfl, rfl, Or.inr (Or.inl rfl)⟩
      | some got =>
        dsimp only
        cases hd : decodeBlock sz channels (blockWsize st.size) (fillBuf st.buf got) st.outbuf
            st.prev0 st.prev1 c1 c2 with
        | none => exact ⟨_, rfl, rfl, Or.inr (Or.inr rfl)⟩
        | some r =>
          dsimp only
          apply ih
          have hb := blockWsize_bounds st.size hpos
          have hw := wrapInt_le_self sz (st.size - blockWsize st.size) (by omega)
          push_cast at hst
          show wrapInt sz (st.size - blockWsize st.size) ≤ (fuel : Int)
          omega
    · simp only [mainLoop, if_neg hpos]
      exact ⟨_, rfl, rfl, Or.inl rfl⟩

theorem buildSig_eq (got : List Byte) :
    buildSig got = 0x80 :: fillBuf (List.replicate 6 0) got := by
  simp [buildSig]

theorem sigInvalid_cons (b0 : Byte) (six : List Byte) :
    sigInvalid ((b0 :: six).set 0 0x80) = decide (six ≠ criText) := by
  rw [Bool.eq_iff_iff]
  simp [sigInvalid]

/-- The run of `main` once the header read, the seek and the signature read went
through: the signature test, then the decode loop. -/
theorem main_after_sig (sz : IntSize) (coefs : Int → Int × Int) (file hdr16 got6 : List Byte)
    (hh : fileRead file 0 16 = some hdr16)
    (hoff : 0 ≤ (parseHeader sz (fillBuf (List.replicate 16 0) hdr16)).offset)
    (hs : fileRead file (parseHeader sz (fillBuf (List.replicate 16 0) hdr16)).offset.toNat 6
      = some got6) :
    (fillBuf (List.replicate 6 0) got6 ≠ criText →
        main sz coefs file = some { status := .invalidADX, output := none })
    ∧ (fillBuf (List.replicate 6 0) got6 = criText →
        ∃ o, main sz coefs file = some o ∧ o.status ≠ .invalidADX ∧ o.output.isSome = true) := by
  have hno : ¬ (parseHeader sz (fillBuf (List.replicate 16 0) hdr16)).offset < 0 := by omega
  constructor
  · intro hne
    have : sigInvalid (buildSig got6) = true := by
      rw [buildSig_eq]
      simpa using (sigInvalid_cons 0x80 (fillBuf (List.replicate 6 0) got6)).trans
        (decide_eq_true hne)
    simp only [main, hh, if_neg hno, hs, this, if_true]
  · intro heq
    have : sigInvalid (buildSig got6) = false := by
      rw [buildSig_eq]
      simpa using (sigInvalid_cons 0x80 (fillBuf (List.replicate 6 0) got6)).trans
        (decide_eq_false (by simpa using heq))
    simp only [main, hh, if_neg hno, hs, this]
    obtain ⟨o, ho, hout, hst⟩ := mainLoop_total sz file
      (parseHeader sz (fillBuf (List.replicate 16 0) hdr16)).channels
      (coefs (parseHeader sz (fillBuf (List.replicate 16 0) hdr16)).freq).1
      (coefs (parseHeader sz (fillBuf (List.replicate 16 0) hdr16)).freq).2
      (parseHeader sz (fillBuf (List.replicate 16 0) hdr16)).size.toNat
      { pos := (parseHeader sz (fillBuf (List.replicate 16 0) hdr16)).offset.toNat + got6.length
        buf := List.replicate
          (if (parseHeader sz (fillBuf (List.replicate 16 0) hdr16)).channels = 1 then 18 else 36) 0
        outbuf := List.replicate 64 0
        prev0 := { s1 := 0, s2 := 0 }
        prev1 := { s1 := 0, s2 := 0 }
        size := (parseHeader sz (fillBuf (List.replicate 16 0) hdr16)).size
        output := encodeWavHeader (mkWavHeader
          (parseHeader sz (fillBuf (List.replicate 16 0) hdr16)).channels
          (parseHeader sz (fillBuf (List.replicate 16 0) hdr16)).freq
          (parseHeader sz (fillBuf (List.replicate 16 0) hdr16)).size) }
      (Int.self_le_toNat _)
    refine ⟨o, ?_, ?_, hout⟩
    · simpa using ho
    · rcases hst with h | h | h <;> rw [h] <;> decide

/-- C8: once the six signature bytes have been read, a run whose six bytes (the contents
of `sig[1:]`) differ from `(c)CRI` ends with the invalid-format message before the output
file is created; when they equal `(c)CRI` the check passes and the output file is
created; and the test depends on the six bytes alone, whatever byte stood in `sig[0]`
before it was forced to `0x80`. -/
theorem main_signature_check (sz : IntSize) (coefs : Int → Int × Int)
    (file hdr16 got6 : List Byte)
    (hh : fileRead file 0 16 = some hdr16)
    (hoff : 0 ≤ (parseHeader sz (fillBuf (List.replicate 16 0) hdr16)).offset)
    (hs : fileRead file (parseHeader sz (fillBuf (List.replicate 16 0) hdr16)).offset.toNat 6
      = some got6) :
    (fillBuf (List.replicate 6 0) got6 ≠ criText →
        main sz coefs file = some { status := .invalidADX, output := none })
    ∧ (fillBuf (List.replicate 6 0) got6 = criText →
        ∃ o, main sz coefs file = some o ∧ o.status ≠ .invalidADX ∧ o.output.isSome = true)
    ∧ (∀ b0 : Byte, sigInvalid ((b0 :: fillBuf (List.replicate 6 0) got6).set 0 0x80)
        = decide (fillBuf (List.replicate 6 0) got6 ≠ criText)) :=
  ⟨(main_after_sig sz coefs file hdr16 got6 hh hoff hs).1,
    (main_after_sig sz coefs file hdr16 got6 hh hoff hs).2,
    fun b0 => sigInvalid_cons b0 _⟩

theorem main_signature_check_witness :
    (fillBuf (List.replicate 6 0) [0x28, 0x63, 0x29, 0x43, 0x72, 0x49] ≠ criText →
        main .w64 fixedCoefs corruptSigFile = some { status := .invalidADX, output := none })
    ∧ (fillBuf (List.replicate 6 0) [0x28, 0x63, 0x29, 0x43, 0x72, 0x49] = criText →
        ∃ o, main .w64 fixedCoefs corruptSigFile = some o ∧ o.status ≠ .invalidADX
          ∧ o.output.isSome = true)
    ∧ (∀ b0 : Byte,
        sigInvalid ((b0 :: fillBuf (List.replicate 6 0) [0x28, 0x63, 0x29, 0x43, 0x72, 0x49]).set
          0 0x80)
        = decide (fillBuf (List.replicate 6 0) [0x28, 0x63, 0x29, 0x43, 0x72, 0x49] ≠ criText)) :=
  main_signature_check .w64 fixedCoefs corruptSigFile (corruptSigFile.take 16)
    [0x28, 0x63, 0x29, 0x43, 0x72, 0x49] (by decide) (by decide) (by decide)

theorem wrapInt_w64_uint32 (x : Int) (h0 : 0 ≤ x) (h1 : x < 4294967296) : wrapInt .w64 x = x := by
  simp only [wrapInt, wrapSigned, IntSize.bits]; norm_num; omega

theorem wrapInt_uint32 (sz : IntSize) (x : Int) (h0 : 0 ≤ x) (h1 : x < 4294967296)
    (h : sz = .w64 ∨ x < 2147483648) : wrapInt sz x = x := by
  rcases h with h | h
  · subst h; exact wrapInt_w64_uint32 x h0 h1
  · exact wrapInt_small sz x (by omega) h

theorem beUint32_lt (b0 b1 b2 b3 : Byte) : beUint32 b0 b1 b2 b3 < 4294967296 := by
  have := b0.isLt; have := b1.isLt; have := b2.isLt; have := b3.isLt
  unfold beUint32; omega

theorem beUint32_eq (b0 b1 b2 b3 : Byte) :
    beUint32 b0 b1 b2 b3 = b0.val * 16777216 + b1.val * 65536 + b2.val * 256 + b3.val := by
  unfold beUint32; ring

theorem getD_of_lt (H : List Byte) (i : Nat) (h : i < H.length) : H.getD i 0 = H[i] := by
  simp [List.getD, List.getElem?_eq_getElem h]

theorem parseHeader_channels_offset (sz : IntSize) (H : List Byte) :
    (parseHeader sz H).channels = ((H.getD 7 0).val : Int)
    ∧ (parseHeader sz H).offset
      = (((H.getD 2 0).val * 256 + (H.getD 3 0).val : Nat) : Int) - 2 := by
  have h7 := (H.getD 7 0).isLt
  have h2 := (H.getD 2 0).isLt
  have h3 := (H.getD 3 0).isLt
  refine ⟨?_, ?_⟩
  · exact wrapInt_small sz _ (by omega) (by omega)
  · show wrapInt sz (wrapInt sz _ - 2) = _
    unfold beUint16
    rw [wrapInt_small sz ((_ : Nat) : Int) (by omega) (by omega)]
    exact wrapInt_small sz _ (by omega) (by omega)

theorem parseHeader_freq (sz : IntSize) (H : List Byte)
    (hf : sz = .w64 ∨ (H.getD 8 0).val * 16777216 + (H.getD 9 0).val * 65536
      + (H.getD 10 0).val * 256 + (H.getD 11 0).val < 2147483648) :
    (parseHeader sz H).freq = (((H.getD 8 0).val * 16777216 + (H.getD 9 0).val * 65536
        + (H.getD 10 0).val * 256 + (H.getD 11 0).val : Nat) : Int) := by
  show wrapInt sz _ = _
  rw [← beUint32_eq]
  have hlt := beUint32_lt (H.getD 8 0) (H.getD 9 0) (H.getD 10 0) (H.getD 11 0)
  rw [← beUint32_eq] at hf
  exact wrapInt_uint32 sz _ (by omega) (by omega) (hf.imp id (fun h => by omega))

theorem parseHeader_size (sz : IntSize) (H : List Byte)
    (hs : sz = .w64 ∨ (H.getD 12 0).val * 16777216 + (H.getD 13 0).val * 65536
      + (H.getD 14 0).val * 256 + (H.getD 15 0).val < 2147483648) :
    (parseHeader sz H).size = (((H.getD 12 0).val * 16777216 + (H.getD 13 0).val * 65536
        + (H.getD 14 0).val * 256 + (H.getD 15 0).val : Nat) : Int) := by
  show wrapInt sz _ = _
  rw [← beUint32_eq]
  have hlt := beUint32_lt (H.getD 12 0) (H.getD 13 0) (H.getD 14 0) (H.getD 15 0)
  rw [← beUint32_eq] at hs
  exact wrapInt_uint32 sz _ (by omega) (by omega) (hs.imp id (fun h => by omega))

theorem parseHeader_congr (sz : IntSize) (H H' : List Byte)
    (h : ∀ i ∈ [2, 3, 7, 8, 9, 10, 11, 12, 13, 14, 15], H'.getD i 0 = H.getD i 0) :
    parseHeader sz H' = parseHeader sz H := by
  simp only [parseHeader]
  rw [h 2 (by decide), h 3 (by decide), h 7 (by decide), h 8 (by decide), h 9 (by decide),
    h 10 (by decide), h 11 (by decide), h 12 (by decide), h 13 (by decide), h 14 (by decide),
    h 15 (by decide)]

/-- C9 (amended): for every 16-byte header `H` and either width of `int`,
`channels = H[7]` and `offset = (256*H[2] + H[3]) - 2`; `freq` is the big-endian 32-bit
value of `H[8..11]` when `int` is 64 bits wide or that value is below `2^31`, and `size`
is the big-endian 32-bit value of `H[12..15]` when `int` is 64 bits wide or that value is
below `2^31`; and a 16-byte header that agrees with `H` on bytes 2, 3, 7 and 8 to 15
yields the same four values. -/
theorem parseHeader_fields (sz : IntSize) (H : List Byte) (hH : H.length = 16) :
    (parseHeader sz H).channels = (H[7].val : Int)
    ∧ (parseHeader sz H).offset = ((H[2].val * 256 + H[3].val : Nat) : Int) - 2
    ∧ ((sz = .w64 ∨ H[8].val * 16777216 + H[9].val * 65536 + H[10].val * 256 + H[11].val
          < 2147483648) →
        (parseHeader sz H).freq
          = ((H[8].val * 16777216 + H[9].val * 65536 + H[10].val * 256 + H[11].val : Nat) : Int))
    ∧ ((sz = .w64 ∨ H[12].val * 16777216 + H[13].val * 65536 + H[14].val * 256 + H[15].val
          < 2147483648) →
        (parseHeader sz H).size
          = ((H[12].val * 16777216 + H[13].val * 65536 + H[14].val * 256 + H[15].val : Nat)
              : Int))
    ∧ ∀ (H' : List Byte) (hH' : H'.length = 16),
        (∀ (i : Nat) (hi : i < 16), i ∈ [2, 3, 7, 8, 9, 10, 11, 12, 13, 14, 15] → H'[i] = H[i]) →
        parseHeader sz H' = parseHeader sz H := by
  have g := parseHeader_channels_offset sz H
  have gf := parseHeader_freq sz H
  have gs := parseHeader_size sz H
  simp only [getD_of_lt H _ (by omega : 2 < H.length), getD_of_lt H _ (by omega : 3 < H.length),
    getD_of_lt H _ (by omega : 7 < H.length)] at g
  simp only [getD_of_lt H _ (by omega : 8 < H.length), getD_of_lt H _ (by omega : 9 < H.length),
    getD_of_lt H _ (by omega : 10 < H.length), getD_of_lt H _ (by omega : 11 < H.length)] at gf
  simp only [getD_of_lt H _ (by omega : 12 < H.length),
    getD_of_lt H _ (by omega : 13 < H.length), getD_of_lt H _ (by omega : 14 < H.length),
    getD_of_lt H _ (by omega : 15 < H.length)] at gs
  refine ⟨g.1, g.2, gf, gs, ?_⟩
  intro H' hH' hagree
  apply parseHeader_congr
  intro i hi
  have hi16 : i < 16 := by
    simp only [List.mem_cons, List.mem_singleton, List.not_mem_nil, or_false] at hi
    omega
  rw [getD_of_lt H' i (by omega), getD_of_lt H i (by omega)]
  exact hagree i hi16 hi

theorem parseHeader_fields_witness :
    (parseHeader .w32 bigRateHeader).channels = (bigRateHeader[7].val : Int)
    ∧ (parseHeader .w32 bigRateHeader).offset
      = ((bigRateHeader[2].val * 256 + bigRateHeader[3].val : Nat) : Int) - 2
    ∧ ((IntSize.w32 = .w64 ∨ bigRateHeader[8].val * 16777216 + bigRateHeader[9].val * 65536
          + bigRateHeader[10].val * 256 + bigRateHeader[11].val < 2147483648) →
        (parseHeader .w32 bigRateHeader).freq
          = ((bigRateHeader[8].val * 16777216 + bigRateHeader[9].val * 65536
              + bigRateHeader[10].val * 256 + bigRateHeader[11].val : Nat) : Int))
    ∧ ((IntSize.w32 = .w64 ∨ bigRateHeader[12].val * 16777216 + bigRateHeader[13].val * 65536
          + bigRateHeader[14].val * 256 + bigRateHeader[15].val < 2147483648) →
        (parseHeader .w32 bigRateHeader).size
          = ((bigRateHeader[12].val * 16777216 + bigRateHeader[13].val * 65536
              + bigRateHeader[14].val * 256 + bigRateHeader[15].val : Nat) : Int))
    ∧ ∀ (H' : List Byte) (hH' : H'.length = 16),
        (∀ (i : Nat) (hi : i < 16), i ∈ [2, 3, 7, 8, 9, 10, 11, 12, 13, 14, 15] →
          H'[i] = bigRateHeader[i]) →
        parseHeader .w32 H' = parseHeader .w32 bigRateHeader :=
  parseHeader_fields .w32 bigRateHeader (by decide)

/-- C9 as stated fails on a 32-bit `int`: a sample-rate field `0x80000000` is yielded as
`-2147483648`, not as the big-endian value `2147483648` (which a 64-bit `int` yields). -/
theorem parseHeader_wraps_on_int32 :
    (parseHeader .w32 bigRateHeader).freq = -2147483648
    ∧ ((bigRateHeader[8].val * 16777216 + bigRateHeader[9].val * 65536
        + bigRateHeader[10].val * 256 + bigRateHeader[11].val : Nat) : Int) = 2147483648
    ∧ (parseHeader .w64 bigRateHeader).freq = 2147483648 := by
  refine ⟨?_, ?_, ?_⟩ <;> decide

theorem fileRead_six (file : List Byte) (pos : Nat) (h : pos + 6 ≤ file.length) :
    fileRead file pos 6 = some ((file.drop pos).take 6)
      ∧ ((file.drop pos).take 6).length = 6 := by
  constructor
  · simp only [fileRead, if_pos (by omega : pos < file.length)]
  · simp only [List.length_take, List.length_drop]; omega

theorem fillBuf_full (buf got : List Byte) (h : buf.length = got.length) :
    fillBuf buf got = got := by
  simp [fillBuf, List.drop_of_length_le (le_of_eq h)]

theorem getD_take_drop (file : List Byte) (pos i : Nat) (hi : i < 6) :
    ((file.drop pos).take 6).getD i 0 = file.getD (pos + i) 0 := by
  simp [List.getD, List.getElem?_take, hi, List.getElem?_drop]

theorem ne_criText_iff (six : List Byte) (h : six.length = 6) :
    six ≠ criText ↔ ∃ i, i < 6 ∧ six.getD i 0 ≠ criText.getD i 0 := by
  constructor
  · intro hne
    by_contra hall
    push_neg at hall
    apply hne
    apply List.ext_getElem (by rw [h]; rfl)
    intro n h1 h2
    have := hall n (by omega)
    rwa [List.getD_eq_getElem _ _ h1, List.getD_eq_getElem _ _ h2] at this
  · rintro ⟨i, _, hi⟩ heq
    exact hi (by rw [heq])

/-- C10 (amended): for every input stream with at least six bytes from `dataOffset` on,
the six bytes compared against `(c)CRI`, `sig[1..6]`, are the stream bytes at positions
`dataOffset` through `dataOffset+5`; `sig[0]` is the constant `0x80`, taken from no
stream position; and the run ends with the invalid-format message exactly when one of
those six stream bytes differs from the literal. -/
theorem signature_bytes_position (sz : IntSize) (coefs : Int → Int × Int)
    (file hdr16 : List Byte)
    (hh : fileRead file 0 16 = some hdr16)
    (hoff : 0 ≤ (parseHeader sz (fillBuf (List.replicate 16 0) hdr16)).offset)
    (hlen : (parseHeader sz (fillBuf (List.replicate 16 0) hdr16)).offset.toNat + 6
      ≤ file.length) :
    ∃ got6,
      fileRead file (parseHeader sz (fillBuf (List.replicate 16 0) hdr16)).offset.toNat 6
        = some got6
      ∧ (∀ i, i < 6 → (buildSig got6).getD (i + 1) 0
          = file.getD ((parseHeader sz (fillBuf (List.replicate 16 0) hdr16)).offset.toNat + i) 0)
      ∧ (buildSig got6).getD 0 0 = 0x80
      ∧ (main sz coefs file = some { status := .invalidADX, output := none }
          ↔ ∃ i, i < 6 ∧
            file.getD ((parseHeader sz (fillBuf (List.replicate 16 0) hdr16)).offset.toNat + i) 0
              ≠ criText.getD i 0) := by
  obtain ⟨hread, hlen6⟩ := fileRead_six file _ hlen
  have hfill : fillBuf (List.replicate 6 0)
      ((file.drop (parseHeader sz (fillBuf (List.replicate 16 0) hdr16)).offset.toNat).take 6)
      = (file.drop (parseHeader sz (fillBuf (List.replicate 16 0) hdr16)).offset.toNat).take 6 :=
    fillBuf_full _ _ (by rw [hlen6]; simp)
  obtain ⟨hbad, hgood⟩ := main_after_sig sz coefs file hdr16 _ hh hoff hread
  rw [hfill] at hbad hgood
  refine ⟨_, hread, ?_, ?_, ?_⟩
  · intro i hi
    rw [buildSig_eq, hfill, List.getD_cons_succ, getD_take_drop _ _ _ hi]
  · rw [buildSig_eq]; rfl
  · have hiff := ne_criText_iff _ hlen6
    simp only [getD_take_drop] at hiff
    constructor
    · intro hmain
      have hne : (file.drop (parseHeader sz (fillBuf (List.replicate 16 0) hdr16)).offset.toNat).take 6
          ≠ criText := by
        intro heq
        obtain ⟨o, ho, hst, _⟩ := hgood heq
        rw [hmain] at ho
        injection ho with ho
        exact hst (by rw [← ho])
      obtain ⟨i, hi, hd⟩ := hiff.mp hne
      exact ⟨i, hi, by rwa [getD_take_drop _ _ _ hi] at hd⟩
    · rintro ⟨i, hi, hd⟩
      exact hbad (hiff.mpr ⟨i, hi, by rwa [getD_take_drop _ _ _ hi]⟩)

theorem signature_bytes_position_witness :
    ∃ got6,
      fileRead shiftedSigFile
          (parseHeader .w64 (fillBuf (List.replicate 16 0) (shiftedSigFile.take 16))).offset.toNat 6
        = some got6
      ∧ (∀ i, i < 6 → (buildSig got6).getD (i + 1) 0
          = shiftedSigFile.getD
            ((parseHeader .w64
              (fillBuf (List.replicate 16 0) (shiftedSigFile.take 16))).offset.toNat + i) 0)
      ∧ (buildSig got6).getD 0 0 = 0x80
      ∧ (main .w64 fixedCoefs shiftedSigFile = some { status := .invalidADX, output := none }
          ↔ ∃ i, i < 6 ∧
            shiftedSigFile.getD
              ((parseHeader .w64
                (fillBuf (List.replicate 16 0) (shiftedSigFile.take 16))).offset.toNat + i) 0
              ≠ criText.getD i 0) :=
  signature_bytes_position .w64 fixedCoefs shiftedSigFile (shiftedSigFile.take 16)
    (by decide) (by decide) (by decide)

/-- C10 as stated fails: in `adxFile 1 32 sampleBlock` (`dataOffset = 18`) the text
`(c)CRI` stands at positions 18 to 23, the bytes at positions 19 to 24 are not the
literal, and the check passes; in `shiftedSigFile` the literal stands at positions
`dataOffset+1` to `dataOffset+6` behind a byte `0x80`, and the run ends with the
invalid-format message. -/
theorem signature_not_at_offset_plus_one :
    (parseHeader .w64 ((adxFile 1 32 sampleBlock).take 16)).offset = 18
    ∧ ((adxFile 1 32 sampleBlock).drop 19).take 6 ≠ criText
    ∧ ((adxFile 1 32 sampleBlock).drop 18).take 6 = criText
    ∧ (∃ bytes, main .w64 fixedCoefs (adxFile 1 32 sampleBlock)
        = some { status := .done, output := some bytes })
    ∧ (parseHeader .w64 (shiftedSigFile.take 16)).offset = 18
    ∧ (shiftedSigFile.drop 19).take 6 = criText
    ∧ shiftedSigFile.getD 18 0 = 0x80
    ∧ main .w64 fixedCoefs shiftedSigFile = some { status := .invalidADX, output := none } := by
  refine ⟨?_, ?_, ?_, ⟨_, rfl⟩, ?_, ?_, ?_, ?_⟩ <;> decide

/-! ## Channel count and nibbles -/

theorem decodeBlock_channels_ne_one (sz : IntSize) (channels wsize : Int) (buf : List Byte)
    (outbuf : List Int) (prev0 prev1 : prevSample) (c1 c2 : Int) (hc : channels ≠ 1) :
    decodeBlock sz channels wsize buf outbuf prev0 prev1 c1 c2
      = decodeBlock sz 2 wsize buf outbuf prev0 prev1 c1 c2 := by
  simp only [decodeBlock, if_neg hc, if_neg (by decide : ¬ (2 : Int) = 1)]

theorem mainLoop_channels_ne_one (sz : IntSize) (file : List Byte) (channels c1 c2 : Int)
    (hc : channels ≠ 1) :
    ∀ (fuel : Nat) (st : loopState),
      mainLoop sz file channels c1 c2 fuel st = mainLoop sz file 2 c1 c2 fuel st := by
  intro fuel
  induction fuel with
  | zero => intro st; simp only [mainLoop]
  | succ fuel ih =>
    intro st
    simp only [mainLoop, decodeBlock_channels_ne_one sz channels _ _ _ _ _ c1 c2 hc, ih]

/-- C11 (amended): the source has no channel validation.  For every channel count other
than 1 (so for 0 and 3..255 too) each pass through the loop body, and the whole decode
loop, runs exactly as for channel count 2: 36-byte chunks decoded as two interleaved
channels; no run is rejected for its channel count. -/
theorem channels_not_validated (sz : IntSize) (file : List Byte) (channels wsize c1 c2 : Int)
    (buf : List Byte) (outbuf : List Int) (prev0 prev1 : prevSample) (fuel : Nat)
    (st : loopState) (hc : channels ≠ 1) :
    decodeBlock sz channels wsize buf outbuf prev0 prev1 c1 c2
      = decodeBlock sz 2 wsize buf outbuf prev0 prev1 c1 c2
    ∧ mainLoop sz file channels c1 c2 fuel st = mainLoop sz file 2 c1 c2 fuel st :=
  ⟨decodeBlock_channels_ne_one sz channels wsize buf outbuf prev0 prev1 c1 c2 hc,
    mainLoop_channels_ne_one sz file channels c1 c2 hc fuel st⟩

theorem channels_not_validated_witness :
    decodeBlock .w64 3 32 stereoChunk (List.replicate 64 0) { s1 := 0, s2 := 0 }
        { s1 := 0, s2 := 0 } 7334 (-3283)
      = decodeBlock .w64 2 32 stereoChunk (List.replicate 64 0) { s1 := 0, s2 := 0 }
        { s1 := 0, s2 := 0 } 7334 (-3283)
    ∧ mainLoop .w64 threeChannelFile 3 7334 (-3283) 32
        { pos := 24, buf := List.replicate 36 0, outbuf := List.replicate 64 0,
          prev0 := { s1 := 0, s2 := 0 }, prev1 := { s1 := 0, s2 := 0 }, size := 32, output := [] }
      = mainLoop .w64 threeChannelFile 2 7334 (-3283) 32
        { pos := 24, buf := List.replicate 36 0, outbuf := List.replicate 64 0,
          prev0 := { s1 := 0, s2 := 0 }, prev1 := { s1 := 0, s2 := 0 }, size := 32, output := [] } :=
  channels_not_validated .w64 threeChannelFile 3 32 7334 (-3283) stereoChunk (List.replicate 64 0)
    { s1 := 0, s2 := 0 } { s1 := 0, s2 := 0 } 32
    { pos := 24, buf := List.replicate 36 0, outbuf := List.replicate 64 0,
      prev0 := { s1 := 0, s2 := 0 }, prev1 := { s1 := 0, s2 := 0 }, size := 32, output := [] }
    (by decide)

/-- C11 as stated fails: a file whose channel count byte is 3 (and one whose byte is 0) is
not rejected; its chunk is decoded through the stereo branch and the run ends with
`Done!` after the 44 header bytes and 64 samples. -/
theorem channel_count_three_is_decoded :
    (parseHeader .w64 (threeChannelFile.take 16)).channels = 3
    ∧ (∃ bytes, main .w64 fixedCoefs threeChannelFile
          = some { status := .done, output := some bytes }
        ∧ bytes.length = 44 + 128)
    ∧ (∃ bytes, main .w64 fixedCoefs (adxFile 0 32 stereoChunk)
          = some { status := .done, output := some bytes }
        ∧ bytes.length = 44 + 128) := by
  refine ⟨?_, ⟨_, rfl, ?_⟩, ⟨_, rfl, ?_⟩⟩ <;> decide

/-- C15: for every data byte `b` the two deltas `adx2pcm` extracts are
`hi = signext4(b >> 4)` and `lo = signext4(b & 15)`; sample `2i` of a block takes the
high nibble of byte `2 + i` and sample `2i + 1` its low nibble; both deltas lie in
`[-8, 7]`, `b = 16*(hi mod 16) + (lo mod 16)`, and the map from byte to delta pair is
injective. -/
theorem nibble_deltas :
    (∀ b : Byte,
      signExtend4 (b.val >>> 4) = signext4 (b.val >>> 4)
      ∧ signExtend4 (b.val &&& 15) = signext4 (b.val &&& 15)
      ∧ -8 ≤ signExtend4 (b.val >>> 4) ∧ signExtend4 (b.val >>> 4) ≤ 7
      ∧ -8 ≤ signExtend4 (b.val &&& 15) ∧ signExtend4 (b.val &&& 15) ≤ 7
      ∧ (b.val : Int) = 16 * (signExtend4 (b.val >>> 4) % 16) + signExtend4 (b.val &&& 15) % 16)
    ∧ (∀ n : Nat, (n ≤ 7 → signext4 n = n) ∧ (8 ≤ n → n ≤ 15 → signext4 n = (n : Int) - 16))
    ∧ (∀ (B : List Byte) (i : Nat),
        codeDelta B (2 * i) = signExtend4 ((B.getD (2 + i) 0).val >>> 4)
        ∧ codeDelta B (2 * i + 1) = signExtend4 ((B.getD (2 + i) 0).val &&& 15))
    ∧ (∀ b b' : Byte,
        signExtend4 (b.val >>> 4) = signExtend4 (b'.val >>> 4) →
        signExtend4 (b.val &&& 15) = signExtend4 (b'.val &&& 15) → b = b') := by
  have key : ∀ b : Byte,
      signExtend4 (b.val >>> 4) = signext4 (b.val >>> 4)
      ∧ signExtend4 (b.val &&& 15) = signext4 (b.val &&& 15)
      ∧ -8 ≤ signExtend4 (b.val >>> 4) ∧ signExtend4 (b.val >>> 4) ≤ 7
      ∧ -8 ≤ signExtend4 (b.val &&& 15) ∧ signExtend4 (b.val &&& 15) ≤ 7
      ∧ (b.val : Int) = 16 * (signExtend4 (b.val >>> 4) % 16) + signExtend4 (b.val &&& 15) % 16 := by
    decide
  refine ⟨key, ?_, ?_, ?_⟩
  · intro n
    constructor
    · intro h; simp [signext4, h]
    · intro h _; simp [signext4, show ¬ n ≤ 7 by omega]
  · intro B i
    exact ⟨codeDelta_even B i, codeDelta_odd B i⟩
  · intro b b' h1 h2
    have e := (key b).2.2.2.2.2.2
    have e' := (key b').2.2.2.2.2.2
    rw [h1, h2, ← e'] at e
    exact Fin.ext (by exact_mod_cast e)

/-! ## Independence of the width of `int` -/

theorem prod_bound (c h C : Int) (hc : |c| ≤ C) (hh : -32768 ≤ h ∧ h ≤ 32767) :
    |c * h| ≤ C * 32768 := by
  have h1 : |h| ≤ 32768 := by rw [abs_le]; omega
  have hC : 0 ≤ C := le_trans (abs_nonneg c) hc
  rw [abs_mul]
  exact mul_le_mul hc h1 (abs_nonneg h) hC

theorem codeHist_in_range (sz : IntSize) (B : List Byte) (prev : prevSample) (c1 c2 : Int)
    (hs1 : -32768 ≤ prev.s1 ∧ prev.s1 ≤ 32767) (hs2 : -32768 ≤ prev.s2 ∧ prev.s2 ≤ 32767)
    (k : Nat) :
    (-32768 ≤ (codeHist sz B prev c1 c2 k).1 ∧ (codeHist sz B prev c1 c2 k).1 ≤ 32767)
    ∧ (-32768 ≤ (codeHist sz B prev c1 c2 k).2 ∧ (codeHist sz B prev c1 c2 k).2 ≤ 32767) := by
  induction k with
  | zero => exact ⟨hs1, hs2⟩
  | succ k ih =>
    refine ⟨?_, ?_⟩
    · rw [codeHist_succ]; exact ⟨codeOut_ge .., codeOut_le ..⟩
    · rw [codeHist_succ]; exact ih.1

theorem intermediate_bounds (c1 c2 h1 h2 d scale : Int)
    (hc1 : 0 ≤ c1 ∧ c1 ≤ 8192) (hc2 : -4096 ≤ c2 ∧ c2 ≤ 0)
    (hh1 : -32768 ≤ h1 ∧ h1 ≤ 32767) (hh2 : -32768 ≤ h2 ∧ h2 ≤ 32767)
    (hd : -8 ≤ d ∧ d ≤ 7) (hs : 1 ≤ scale ∧ scale ≤ 65536) :
    |c1 * h1| < 2 ^ 31 ∧ |c2 * h2| < 2 ^ 31 ∧ |c1 * h1 + c2 * h2| < 2 ^ 31
    ∧ |d * scale| < 2 ^ 31
    ∧ |d * scale + (c1 * h1 + c2 * h2) >>> (12 : Nat)| ≤ 622592 := by
  have p1 := prod_bound c1 h1 8192 (by rw [abs_le]; omega) hh1
  have p2 := prod_bound c2 h2 4096 (by rw [abs_le]; omega) hh2
  obtain ⟨q1, q2⟩ := delta_scale_bounds d scale hd hs
  rw [Int.shiftRight_eq_div_pow]
  generalize c1 * h1 = x at *
  generalize c2 * h2 = y at *
  generalize d * scale = z at *
  rw [abs_le] at p1 p2
  norm_num at *
  refine ⟨?_, ?_, ?_, ?_, ?_⟩
  · rw [abs_lt]; omega
  · rw [abs_lt]; omega
  · rw [abs_lt]; omega
  · rw [abs_lt]; omega
  · rw [abs_le]; omega

theorem codeHist_width (B : List Byte) (prev : prevSample) (c1 c2 : Int)
    (hc1 : 0 ≤ c1 ∧ c1 ≤ 8192) (hc2 : -4096 ≤ c2 ∧ c2 ≤ 0)
    (hs1 : -32768 ≤ prev.s1 ∧ prev.s1 ≤ 32767) (hs2 : -32768 ≤ prev.s2 ∧ prev.s2 ≤ 32767)
    (k : Nat) :
    codeHist .w32 B prev c1 c2 k = codeHist .w64 B prev c1 c2 k := by
  induction k with
  | zero => rfl
  | succ k ih =>
    obtain ⟨r1, r2⟩ := codeHist_in_range .w64 B prev c1 c2 hs1 hs2 k
    have hd : -8 ≤ codeDelta B k ∧ codeDelta B k ≤ 7 := by
      rw [codeDelta_eq_refDelta]; exact refDelta_bounds B k
    have hs : 1 ≤ codeScale B ∧ codeScale B ≤ 65536 := by
      rw [codeScale_eq_refScale]; exact refScale_bounds B
    obtain ⟨_, _, b3, _, _⟩ := intermediate_bounds c1 c2 _ _ _ _ hc1 hc2 r1 r2 hd hs
    rw [abs_lt] at b3
    have f32 : fitsInt .w32 (c1 * (codeHist .w64 B prev c1 c2 k).1
        + c2 * (codeHist .w64 B prev c1 c2 k).2) := by
      simp only [fitsInt, IntSize.bits]; norm_num at b3 ⊢; omega
    have f64 : fitsInt .w64 (c1 * (codeHist .w64 B prev c1 c2 k).1
        + c2 * (codeHist .w64 B prev c1 c2 k).2) := by
      simp only [fitsInt, IntSize.bits]; norm_num at b3 ⊢; omega
    simp only [codeHist, ih]
    rw [decodeSample_eq_refSample .w32 _ c1 c2 _ _ _ hd hs f32,
      decodeSample_eq_refSample .w64 _ c1 c2 _ _ _ hd hs f64]

/-- C18: for every 18-byte block, coefficients with `0 <= coef1 <= 8192`,
`-4096 <= coef2 <= 0` and an incoming state in `[-32768, 32767]`, at each of the 32
steps the products, the accumulator `coef1*s1 + coef2*s2` and `d*scale` are below `2^31`
in absolute value and the pre-clip sum is at most 622592 in absolute value; `adx2pcm`
gives the same result for a 32-bit and a 64-bit `int`; and the outgoing state lies in
`[-32768, 32767]`. -/
theorem adx2pcm_width_independent (out : List Int) (B : List Byte) (prev : prevSample)
    (coef1 coef2 : Int) (hB : B.length = 18) (hout : 32 ≤ out.length)
    (hc1 : 0 ≤ coef1 ∧ coef1 ≤ 8192) (hc2 : -4096 ≤ coef2 ∧ coef2 ≤ 0)
    (hs1 : -32768 ≤ prev.s1 ∧ prev.s1 ≤ 32767) (hs2 : -32768 ≤ prev.s2 ∧ prev.s2 ≤ 32767) :
    (∀ (sz : IntSize) (k : Nat), k < 32 →
      |coef1 * (codeHist sz B prev coef1 coef2 k).1| < 2 ^ 31
      ∧ |coef2 * (codeHist sz B prev coef1 coef2 k).2| < 2 ^ 31
      ∧ |coef1 * (codeHist sz B prev coef1 coef2 k).1
          + coef2 * (codeHist sz B prev coef1 coef2 k).2| < 2 ^ 31
      ∧ |codeDelta B k * codeScale B| < 2 ^ 31
      ∧ |codeDelta B k * codeScale B
          + (coef1 * (codeHist sz B prev coef1 coef2 k).1
              + coef2 * (codeHist sz B prev coef1 coef2 k).2) >>> (12 : Nat)| ≤ 622592)
    ∧ adx2pcm .w32 out B prev coef1 coef2 = adx2pcm .w64 out B prev coef1 coef2
    ∧ ∃ out' prev', adx2pcm .w64 out B prev coef1 coef2 = some (out', prev')
        ∧ -32768 ≤ prev'.s1 ∧ prev'.s1 ≤ 32767 ∧ -32768 ≤ prev'.s2 ∧ prev'.s2 ≤ 32767 := by
  refine ⟨?_, ?_, ?_⟩
  · intro sz k _
    obtain ⟨r1, r2⟩ := codeHist_in_range sz B prev coef1 coef2 hs1 hs2 k
    have hd : -8 ≤ codeDelta B k ∧ codeDelta B k ≤ 7 := by
      rw [codeDelta_eq_refDelta]; exact refDelta_bounds B k
    have hs : 1 ≤ codeScale B ∧ codeScale B ≤ 65536 := by
      rw [codeScale_eq_refScale]; exact refScale_bounds B
    exact intermediate_bounds coef1 coef2 _ _ _ _ hc1 hc2 r1 r2 hd hs
  · obtain ⟨o32, h32, l32, k32⟩ := adx2pcm_spec .w32 out B prev coef1 coef2 (by omega) hout
    obtain ⟨o64, h64, l64, k64⟩ := adx2pcm_spec .w64 out B prev coef1 coef2 (by omega) hout
    have hco : ∀ k, codeOut .w32 B prev coef1 coef2 k = codeOut .w64 B prev coef1 coef2 k := by
      intro k
      simp only [codeOut, codeHist_width B prev coef1 coef2 hc1 hc2 hs1 hs2 (k + 1)]
    have ho : o32 = o64 := by
      apply List.ext_getElem?
      intro k
      rw [k32 k, k64 k, hco k]
    rw [h32, h64, ho, hco 31, hco 30]
  · obtain ⟨o64, h64, _, _⟩ := adx2pcm_spec .w64 out B prev coef1 coef2 (by omega) hout
    exact ⟨o64, _, h64, codeOut_ge .., codeOut_le .., codeOut_ge .., codeOut_le ..⟩

theorem adx2pcm_width_independent_witness :
    (∀ (sz : IntSize) (k : Nat), k < 32 →
      |8192 * (codeHist sz sampleBlock { s1 := -32768, s2 := 32767 } 8192 (-4096) k).1| < 2 ^ 31
      ∧ |(-4096) * (codeHist sz sampleBlock { s1 := -32768, s2 := 32767 } 8192 (-4096) k).2|
          < 2 ^ 31
      ∧ |8192 * (codeHist sz sampleBlock { s1 := -32768, s2 := 32767 } 8192 (-4096) k).1
          + (-4096) * (codeHist sz sampleBlock { s1 := -32768, s2 := 32767 } 8192 (-4096) k).2|
          < 2 ^ 31
      ∧ |codeDelta sampleBlock k * codeScale sampleBlock| < 2 ^ 31
      ∧ |codeDelta sampleBlock k * codeScale sampleBlock
          + (8192 * (codeHist sz sampleBlock { s1 := -32768, s2 := 32767 } 8192 (-4096) k).1
              + (-4096)
                * (codeHist sz sampleBlock { s1 := -32768, s2 := 32767 } 8192 (-4096) k).2)
            >>> (12 : Nat)| ≤ 622592)
    ∧ adx2pcm .w32 (List.replicate 32 0) sampleBlock { s1 := -32768, s2 := 32767 } 8192 (-4096)
      = adx2pcm .w64 (List.replicate 32 0) sampleBlock { s1 := -32768, s2 := 32767 } 8192 (-4096)
    ∧ ∃ out' prev', adx2pcm .w64 (List.replicate 32 0) sampleBlock
          { s1 := -32768, s2 := 32767 } 8192 (-4096) = some (out', prev')
        ∧ -32768 ≤ prev'.s1 ∧ prev'.s1 ≤ 32767 ∧ -32768 ≤ prev'.s2 ∧ prev'.s2 ≤ 32767 :=
  adx2pcm_width_independent (List.replicate 32 0) sampleBlock { s1 := -32768, s2 := 32767 }
    8192 (-4096) (by decide) (by decide) (by decide) (by decide) (by decide) (by decide)

/-! ## The WAV header -/

theorem leValue_le32 (v : Nat) (h : v < 4294967296) : leValue (le32 v) = v := by
  simp only [le32, leValue, Fin.ofNat, Fin.val_mk]
  omega

theorem leValue_le16 (v : Nat) (h : v < 65536) : leValue (le16 (v : Int)) = v := by
  simp only [le16, leValue, Fin.ofNat, Fin.val_mk]
  omega

theorem toUint32_wrapInt (sz : IntSize) (v : Nat) (h : v < 4294967296) :
    toUint32 (wrapInt sz (v : Int)) = v := by
  cases sz <;> simp only [toUint32, wrapInt, wrapSigned, IntSize.bits] <;> norm_num <;> omega

theorem toUint16_small (v : Nat) (h : v < 65536) : toUint16 (v : Int) = v := by
  simp only [toUint16]; omega

theorem wavHeader_slices (channels freq size : Int) :
    (encodeWavHeader (mkWavHeader channels freq size)).length = 44
    ∧ (encodeWavHeader (mkWavHeader channels freq size)).take 4 = [0x52, 0x49, 0x46, 0x46]
    ∧ ((encodeWavHeader (mkWavHeader channels freq size)).drop 4).take 4
        = le32 (mkWavHeader channels freq size).Size
    ∧ ((encodeWavHeader (mkWavHeader channels freq size)).drop 8).take 8
        = [0x57, 0x41, 0x56, 0x45, 0x66, 0x6d, 0x74, 0x20]
    ∧ ((encodeWavHeader (mkWavHeader channels freq size)).drop 16).take 4 = le32 16
    ∧ ((encodeWavHeader (mkWavHeader channels freq size)).drop 20).take 2 = le16 1
    ∧ ((encodeWavHeader (mkWavHeader channels freq size)).drop 22).take 2
        = le16 (mkWavHeader channels freq size).Channels
    ∧ ((encodeWavHeader (mkWavHeader channels freq size)).drop 24).take 4
        = le32 (mkWavHeader channels freq size).SampleRate
    ∧ ((encodeWavHeader (mkWavHeader channels freq size)).drop 28).take 4
        = le32 (mkWavHeader channels freq size).ByteRate
    ∧ ((encodeWavHeader (mkWavHeader channels freq size)).drop 32).take 2
        = le16 (mkWavHeader channels freq size).BlockAlign
    ∧ ((encodeWavHeader (mkWavHeader channels freq size)).drop 34).take 2 = le16 16
    ∧ ((encodeWavHeader (mkWavHeader channels freq size)).drop 36).take 4
        = [0x64, 0x61, 0x74, 0x61]
    ∧ ((encodeWavHeader (mkWavHeader channels freq size)).drop 40).take 4
        = le32 (mkWavHeader channels freq size).DataSize := by
  refine ⟨?_, ?_, ?_, ?_, ?_, ?_, ?_, ?_, ?_, ?_, ?_, ?_, ?_⟩ <;>
    simp [encodeWavHeader, mkWavHeader, le32, le16]

/-- C12 (amended): for every channel count in {1, 2} and every 32-bit total sample count
`N`, the WAV header declares data chunk size `(N * channels * 2) mod 2^32` and RIFF chunk
size `(data chunk size + 36) mod 2^32`, and these are the values of the little-endian
fields at bytes 40..43 and 4..7; when `N * channels * 2 + 36 < 2^32` they are exactly
`N * channels * 2` and `data chunk size + 36`. -/
theorem wav_header_sizes (sz : IntSize) (ch N : Nat) (freq : Int) (hch : ch = 1 ∨ ch = 2)
    (hN : N < 4294967296) :
    (mkWavHeader (ch : Int) freq (wrapInt sz N)).DataSize = (N * ch * 2) % 4294967296
    ∧ (mkWavHeader (ch : Int) freq (wrapInt sz N)).Size
        = ((mkWavHeader (ch : Int) freq (wrapInt sz N)).DataSize + 36) % 4294967296
    ∧ leValue (((encodeWavHeader (mkWavHeader (ch : Int) freq (wrapInt sz N))).drop 40).take 4)
        = (mkWavHeader (ch : Int) freq (wrapInt sz N)).DataSize
    ∧ leValue (((encodeWavHeader (mkWavHeader (ch : Int) freq (wrapInt sz N))).drop 4).take 4)
        = (mkWavHeader (ch : Int) freq (wrapInt sz N)).Size
    ∧ (N * ch * 2 + 36 < 4294967296 →
        (mkWavHeader (ch : Int) freq (wrapInt sz N)).DataSize = N * ch * 2
        ∧ (mkWavHeader (ch : Int) freq (wrapInt sz N)).Size
            = (mkWavHeader (ch : Int) freq (wrapInt sz N)).DataSize + 36) := by
  have hc16 : toUint16 (ch : Int) = ch := toUint16_small ch (by omega)
  have hD : (mkWavHeader (ch : Int) freq (wrapInt sz N)).DataSize = (N * ch * 2) % 4294967296 := by
    simp only [mkWavHeader, toUint32_wrapInt sz N hN, hc16]
    rcases hch with h | h <;> subst h <;> first | (norm_num; done) | (norm_num; omega)
  have hS : (mkWavHeader (ch : Int) freq (wrapInt sz N)).Size
      = ((mkWavHeader (ch : Int) freq (wrapInt sz N)).DataSize + 36) % 4294967296 := by
    rw [hD]
    simp only [mkWavHeader, toUint32_wrapInt sz N hN, hc16]
    rcases hch with h | h <;> subst h <;> first | (norm_num; done) | (norm_num; omega)
  obtain ⟨_, _, s4, _, _, _, _, _, _, _, _, _, s40⟩ :=
    wavHeader_slices (ch : Int) freq (wrapInt sz N)
  refine ⟨hD, hS, ?_, ?_, ?_⟩
  · rw [s40, leValue_le32 _ (by rw [hD]; omega)]
  · rw [s4, leValue_le32 _ (by rw [hS]; omega)]
  · intro hb
    rw [hS, hD]
    constructor <;> omega

theorem wav_header_sizes_witness :
    (mkWavHeader ((2 : Nat) : Int) 44100 (wrapInt .w32 1000000)).DataSize
      = (1000000 * 2 * 2) % 4294967296
    ∧ (mkWavHeader ((2 : Nat) : Int) 44100 (wrapInt .w32 1000000)).Size
        = ((mkWavHeader ((2 : Nat) : Int) 44100 (wrapInt .w32 1000000)).DataSize + 36)
          % 4294967296
    ∧ leValue (((encodeWavHeader
          (mkWavHeader ((2 : Nat) : Int) 44100 (wrapInt .w32 1000000))).drop 40).take 4)
        = (mkWavHeader ((2 : Nat) : Int) 44100 (wrapInt .w32 1000000)).DataSize
    ∧ leValue (((encodeWavHeader
          (mkWavHeader ((2 : Nat) : Int) 44100 (wrapInt .w32 1000000))).drop 4).take 4)
        = (mkWavHeader ((2 : Nat) : Int) 44100 (wrapInt .w32 1000000)).Size
    ∧ (1000000 * 2 * 2 + 36 < 4294967296 →
        (mkWavHeader ((2 : Nat) : Int) 44100 (wrapInt .w32 1000000)).DataSize = 1000000 * 2 * 2
        ∧ (mkWavHeader ((2 : Nat) : Int) 44100 (wrapInt .w32 1000000)).Size
            = (mkWavHeader ((2 : Nat) : Int) 44100 (wrapInt .w32 1000000)).DataSize + 36) :=
  wav_header_sizes .w32 2 1000000 44100 (by decide) (by decide)

/-- C12 as stated fails: for one channel and total sample count `2^31` the header
declares data chunk size 0, not `2^31 * 1 * 2`; for two channels and total sample count
`2^30 - 1` the data chunk size is `2^32 - 4` and the RIFF chunk size wraps to 32. -/
theorem wav_header_sizes_wrap :
    (mkWavHeader 1 44100 (wrapInt .w64 2147483648)).DataSize = 0
    ∧ 2147483648 * 1 * 2 = 4294967296
    ∧ (mkWavHeader 2 44100 (wrapInt .w64 1073741823)).DataSize = 4294967292
    ∧ (mkWavHeader 2 44100 (wrapInt .w64 1073741823)).Size = 32 := by
  refine ⟨?_, ?_, ?_, ?_⟩ <;> decide

/-- C13: for every channel count in {1, 2} and every 32-bit sample rate `R` with
`R * channels * 2 < 2^32`, the serialized WAV header has 44 bytes and its little-endian
fields hold format tag 1, the channel count, `R`, byte rate `R * channels * 2`, block
align `channels * 2` and 16 bits per sample, between the texts `RIFF`, `WAVE`, `fmt `
(with chunk size 16) and `data`. -/
theorem wav_header_format (sz : IntSize) (ch R : Nat) (size : Int) (hch : ch = 1 ∨ ch = 2)
    (hR : R * ch * 2 < 4294967296) :
    (encodeWavHeader (mkWavHeader (ch : Int) (wrapInt sz R) size)).length = 44
    ∧ leValue (((encodeWavHeader (mkWavHeader (ch : Int) (wrapInt sz R) size)).drop 20).take 2)
        = 1
    ∧ leValue (((encodeWavHeader (mkWavHeader (ch : Int) (wrapInt sz R) size)).drop 22).take 2)
        = ch
    ∧ leValue (((encodeWavHeader (mkWavHeader (ch : Int) (wrapInt sz R) size)).drop 24).take 4)
        = R
    ∧ leValue (((encodeWavHeader (mkWavHeader (ch : Int) (wrapInt sz R) size)).drop 28).take 4)
        = R * ch * 2
    ∧ leValue (((encodeWavHeader (mkWavHeader (ch : Int) (wrapInt sz R) size)).drop 32).take 2)
        = ch * 2
    ∧ leValue (((encodeWavHeader (mkWavHeader (ch : Int) (wrapInt sz R) size)).drop 34).take 2)
        = 16
    ∧ (encodeWavHeader (mkWavHeader (ch : Int) (wrapInt sz R) size)).take 4
        = [0x52, 0x49, 0x46, 0x46]
    ∧ ((encodeWavHeader (mkWavHeader (ch : Int) (wrapInt sz R) size)).drop 8).take 8
        = [0x57, 0x41, 0x56, 0x45, 0x66, 0x6d, 0x74, 0x20]
    ∧ leValue (((encodeWavHeader (mkWavHeader (ch : Int) (wrapInt sz R) size)).drop 16).take 4)
        = 16
    ∧ ((encodeWavHeader (mkWavHeader (ch : Int) (wrapInt sz R) size)).drop 36).take 4
        = [0x64, 0x61, 0x74, 0x61] := by
  have hR32 : R < 4294967296 := by rcases hch with h | h <;> subst h <;> omega
  have hc16 : toUint16 (ch : Int) = ch := toUint16_small ch (by omega)
  have fCh : (mkWavHeader (ch : Int) (wrapInt sz R) size).Channels = ch := by
    simp only [mkWavHeader, hc16]
  have fRate : (mkWavHeader (ch : Int) (wrapInt sz R) size).SampleRate = R := by
    simp only [mkWavHeader, toUint32_wrapInt sz R hR32]
  have fAlign : (mkWavHeader (ch : Int) (wrapInt sz R) size).BlockAlign = ch * 2 := by
    simp only [mkWavHeader, hc16]
    rcases hch with h | h <;> subst h <;> norm_num
  have fByte : (mkWavHeader (ch : Int) (wrapInt sz R) size).ByteRate = R * ch * 2 := by
    simp only [mkWavHeader, hc16, toUint32_wrapInt sz R hR32]
    rcases hch with h | h <;> subst h <;> first | (norm_num at hR ⊢; done) | (norm_num at hR ⊢; omega)
  obtain ⟨s0, sR, _, sW, sF, s20, s22, s24, s28, s32, s34, s36, _⟩ :=
    wavHeader_slices (ch : Int) (wrapInt sz R) size
  refine ⟨s0, ?_, ?_, ?_, ?_, ?_, ?_, sR, sW, ?_, s36⟩
  · rw [s20]; decide
  · rw [s22, fCh, leValue_le16 _ (by omega)]
  · rw [s24, fRate, leValue_le32 _ hR32]
  · rw [s28, fByte, leValue_le32 _ hR]
  · rw [s32, fAlign, leValue_le16 _ (by omega)]
  · rw [s34]; decide
  · rw [sF]; decide

theorem wav_header_format_witness :
    (encodeWavHeader (mkWavHeader ((2 : Nat) : Int) (wrapInt .w32 1000000000) 77)).length = 44
    ∧ leValue (((encodeWavHeader
        (mkWavHeader ((2 : Nat) : Int) (wrapInt .w32 1000000000) 77)).drop 20).take 2) = 1
    ∧ leValue (((encodeWavHeader
        (mkWavHeader ((2 : Nat) : Int) (wrapInt .w32 1000000000) 77)).drop 22).take 2) = 2
    ∧ leValue (((encodeWavHeader
        (mkWavHeader ((2 : Nat) : Int) (wrapInt .w32 1000000000) 77)).drop 24).take 4)
        = 1000000000
    ∧ leValue (((encodeWavHeader
        (mkWavHeader ((2 : Nat) : Int) (wrapInt .w32 1000000000) 77)).drop 28).take 4)
        = 1000000000 * 2 * 2
    ∧ leValue (((encodeWavHeader
        (mkWavHeader ((2 : Nat) : Int) (wrapInt .w32 1000000000) 77)).drop 32).take 2) = 2 * 2
    ∧ leValue (((encodeWavHeader
        (mkWavHeader ((2 : Nat) : Int) (wrapInt .w32 1000000000) 77)).drop 34).take 2) = 16
    ∧ (encodeWavHeader (mkWavHeader ((2 : Nat) : Int) (wrapInt .w32 1000000000) 77)).take 4
        = [0x52, 0x49, 0x46, 0x46]
    ∧ ((encodeWavHeader
        (mkWavHeader ((2 : Nat) : Int) (wrapInt .w32 1000000000) 77)).drop 8).take 8
        = [0x57, 0x41, 0x56, 0x45, 0x66, 0x6d, 0x74, 0x20]
    ∧ leValue (((encodeWavHeader
        (mkWavHeader ((2 : Nat) : Int) (wrapInt .w32 1000000000) 77)).drop 16).take 4) = 16
    ∧ ((encodeWavHeader
        (mkWavHeader ((2 : Nat) : Int) (wrapInt .w32 1000000000) 77)).drop 36).take 4
        = [0x64, 0x61, 0x74, 0x61] :=
  wav_header_format .w32 2 1000000000 77 (by decide) (by decide)

/-! ## The decode loop -/

theorem mainLoopCount_status (sz : IntSize) (file : List Byte) (channels c1 c2 : Int) :
    ∀ (fuel : Nat) (st : loopState) (reads : Nat),
      (mainLoopCount sz file channels c1 c2 fuel st reads).map (fun r => r.1)
        = (mainLoop sz file channels c1 c2 fuel st).map (fun o => o.status) := by
  intro fuel
  induction fuel with
  | zero =>
    intro st reads
    simp only [mainLoopCount, mainLoop]
    split_ifs <;> rfl
  | succ fuel ih =>
    intro st reads
    simp only [mainLoopCount, mainLoop]
    split_ifs
    · cases fileRead file st.pos st.buf.length with
      | none => rfl
      | some got =>
        dsimp only
        cases decodeBlock sz channels (blockWsize st.size) (fillBuf st.buf got) st.outbuf
            st.prev0 st.prev1 c1 c2 with
        | none => rfl
        | some r => exact ih _ _
    · rfl

theorem encodeSamples_length (l : List Int) : (encodeSamples l).length = 2 * l.length := by
  induction l with
  | nil => rfl
  | cons a l ih =>
    simp only [encodeSamples, List.flatMap_cons, List.length_append, List.length_cons] at ih ⊢
    rw [ih]
    simp [le16]
    omega

theorem fileRead_length (file : List Byte) (pos n : Nat) (got : List Byte)
    (h : fileRead file pos n = some got) : got.length ≤ n := by
  unfold fileRead at h
  split_ifs at h
  injection h with h
  rw [← h]
  simp

theorem fillBuf_length (buf got : List Byte) (h : got.length ≤ buf.length) :
    (fillBuf buf got).length = buf.length := by
  simp [fillBuf]; omega

/-- The stereo branch never panics on a 36-byte chunk and a 64-entry `outbuf`. -/
theorem decodeBlock_stereo_lengths (sz : IntSize) (channels size : Int) (buf : List Byte)
    (outbuf : List Int) (prev0 prev1 : prevSample) (c1 c2 : Int)
    (hch : channels ≠ 1) (hbuf : buf.length = 36) (hout : outbuf.length = 64)
    (hsize : 0 < size) :
    ∃ res, decodeBlock sz channels (blockWsize size) buf outbuf prev0 prev1 c1 c2 = some res
      ∧ res.forwarded.length = 2 * min 32 size.toNat ∧ res.outbuf.length = 64 := by
  obtain ⟨t1, ht1, ht1len, _⟩ := adx2pcm_spec sz ((List.replicate 64 (0 : Int)).take 32) buf
    prev0 c1 c2 (by omega) (by simp)
  have ht1len' : t1.length = 32 := by simpa using ht1len
  have hdrop : (t1 ++ (List.replicate 64 (0 : Int)).drop 32).drop 32
      = (List.replicate 64 (0 : Int)).drop 32 := by
    rw [List.drop_append_of_le_length (by omega), List.drop_of_length_le (by omega)]
    rfl
  have htake : (t1 ++ (List.replicate 64 (0 : Int)).drop 32).take 32 = t1 := by
    rw [List.take_append_of_le_length (by omega), List.take_of_length_le (by omega)]
  obtain ⟨t2, ht2, ht2len, _⟩ := adx2pcm_spec sz ((List.replicate 64 (0 : Int)).drop 32)
    (buf.drop 18) prev1 c1 c2 (by simp; omega) (by simp)
  have ht2len' : t2.length = 32 := by simpa using ht2len
  obtain ⟨o', ho', ho'len, _⟩ := interleaveLoop_spec (t1 ++ t2) (by simp; omega) 32 0 outbuf
    (by omega) (by omega)
  have hslice := sliceTo_wsize sz o' size hsize (by omega)
  have hlt : ¬ buf.length < 18 := by omega
  refine ⟨{ forwarded := o'.take (2 * min 32 size.toNat),
             outbuf := o',
             prev0 := { s1 := codeOut sz buf prev0 c1 c2 31, s2 := codeOut sz buf prev0 c1 c2 30 },
             prev1 := { s1 := codeOut sz (buf.drop 18) prev1 c1 c2 31,
                        s2 := codeOut sz (buf.drop 18) prev1 c1 c2 30 } }, ?_, ?_, ?_⟩
  · simp only [decodeBlock, if_neg hch, ht1, hdrop, htake, ht2, ho', hslice, if_neg hlt]
  · simp only [List.length_take]; omega
  · show o'.length = 64
    omega

/-- In the stereo branch, from a state with a 36-byte `buf`, a 64-entry `outbuf` and
`0 <= size < 2^31`, a run of the loop that ends with `Done!` has appended `4 * size`
bytes to the output, made `ceil(size / 32)` block reads and left `size = 0`. -/
theorem mainLoop_stereo_done (sz : IntSize) (file : List Byte) (channels c1 c2 : Int)
    (hch : channels ≠ 1) :
    ∀ (fuel : Nat) (st : loopState) (reads : Nat),
      st.buf.length = 36 → st.outbuf.length = 64 → 0 ≤ st.size → st.size < 2147483648 →
      (∀ o, mainLoop sz file channels c1 c2 fuel st = some o → o.status = .done →
        ∃ payload, o.output = some (st.output ++ payload)
          ∧ payload.length = 4 * st.size.toNat)
      ∧ (∀ r s, mainLoopCount sz file channels c1 c2 fuel st reads = some (.done, r, s) →
          r = reads + (st.size.toNat + 31) / 32 ∧ s = 0)
      ∧ (∀ o, mainLoop sz file channels c1 c2 fuel st = some o → o.status ≠ .panicked) := by
  intro fuel
  induction fuel with
  | zero =>
    intro st reads _ _ h0 _
    refine ⟨?_, ?_, ?_⟩
    · intro o ho _
      simp only [mainLoop] at ho
      split_ifs at ho with hpos
      injection ho with ho
      refine ⟨[], by rw [← ho]; simp, ?_⟩
      have : st.size = 0 := by omega
      simp [this]
    · intro r s h
      simp only [mainLoopCount] at h
      split_ifs at h with hpos
      injection h with h
      have hz : st.size = 0 := by omega
      simp only [Prod.mk.injEq] at h
      obtain ⟨_, hr, hs⟩ := h
      rw [← hr, ← hs, hz]
      simp
    · intro o ho
      simp only [mainLoop] at ho
      split_ifs at ho with hpos
      injection ho with ho
      rw [← ho]; simp
  | succ fuel ih =>
    intro st reads hbuf hout h0 h31
    by_cases hpos : st.size > 0
    · cases hr : fileRead file st.pos st.buf.length with
      | none =>
        refine ⟨?_, ?_, ?_⟩
        · intro o ho hst
          simp only [mainLoop, if_pos hpos, hr] at ho
          injection ho with ho
          rw [← ho] at hst
          simp at hst
        · intro r s h
          simp only [mainLoopCount, if_pos hpos, hr] at h
          injection h with h
          simp only [Prod.mk.injEq] at h
          exact absurd h.1 (by decide)
        · intro o ho
          simp only [mainLoop, if_pos hpos, hr] at ho
          injection ho with ho
          rw [← ho]; simp
      | some got =>
        have hgot := fileRead_length file st.pos st.buf.length got hr
        have hfill : (fillBuf st.buf got).length = 36 := by
          rw [fillBuf_length _ _ hgot, hbuf]
        obtain ⟨res, hres, hfw, hob⟩ := decodeBlock_stereo_lengths sz channels st.size
          (fillBuf st.buf got) st.outbuf st.prev0 st.prev1 c1 c2 hch hfill hout hpos
        have hb := blockWsize_eq st.size hpos
        have hsz : wrapInt sz (st.size - blockWsize st.size) = st.size - blockWsize st.size :=
          wrapInt_small sz _ (by omega) (by omega)
        obtain ⟨ih1, ih2, ih3⟩ := ih
          { pos := st.pos + got.length
            buf := fillBuf st.buf got
            outbuf := res.outbuf
            prev0 := res.prev0
            prev1 := res.prev1
            size := st.size - blockWsize st.size
            output := st.output ++ encodeSamples res.forwarded }
          (reads + 1) hfill hob (by show 0 ≤ st.size - blockWsize st.size; omega)
          (by show st.size - blockWsize st.size < 2147483648; omega)
        refine ⟨?_, ?_, ?_⟩
        · intro o ho hst
          simp only [mainLoop, if_pos hpos, hr, hres, hsz] at ho
          obtain ⟨payload, hp1, hp2⟩ := ih1 o ho hst
          refine ⟨encodeSamples res.forwarded ++ payload, ?_, ?_⟩
          · rw [hp1]; simp
          · simp only [List.length_append, encodeSamples_length, hfw, hp2]
            omega
        · intro r s h
          simp only [mainLoopCount, if_pos hpos, hr, hres, hsz] at h
          obtain ⟨e1, e2⟩ := ih2 r s h
          refine ⟨?_, e2⟩
          rw [e1]
          simp only []
          omega
        · intro o ho
          simp only [mainLoop, if_pos hpos, hr, hres, hsz] at ho
          exact ih3 o ho
    · have hz : st.size = 0 := by omega
      refine ⟨?_, ?_, ?_⟩
      · intro o ho _
        simp only [mainLoop, if_neg hpos] at ho
        injection ho with ho
        refine ⟨[], by rw [← ho]; simp, ?_⟩
        simp [hz]
      · intro r s h
        simp only [mainLoopCount, if_neg hpos] at h
        injection h with h
        simp only [Prod.mk.injEq] at h
        obtain ⟨_, hr, hs⟩ := h
        rw [← hr, ← hs, hz]
        simp
      · intro o ho
        simp only [mainLoop, if_neg hpos] at ho
        injection ho with ho
        rw [← ho]; simp

theorem fileRead_zero (file got : List Byte) (h : fileRead file 0 16 = some got) :
    got = file.take 16 := by
  unfold fileRead at h
  split_ifs at h
  injection h with h
  rw [← h]; simp

/-- C16 (amended): for channel count 2 and a parsed total sample count `N` with
`N * 2 * 2 < 2^32`, every run that ends with `Done!` (all reads succeeded) has written the
44 header bytes and then `N * 2` samples, `N * 2 * 2` bytes, which is the data chunk size
the header declares at bytes 40..43. -/
theorem stereo_payload_matches_header (sz : IntSize) (coefs : Int → Int × Int)
    (file bytes : List Byte) (N : Nat)
    (hrun : main sz coefs file = some { status := .done, output := some bytes })
    (hch : (parseHeader sz (fillBuf (List.replicate 16 0) (file.take 16))).channels = 2)
    (hN : (parseHeader sz (fillBuf (List.replicate 16 0) (file.take 16))).size = (N : Int))
    (h4 : N * 2 * 2 < 4294967296) :
    bytes.length = 44 + N * 2 * 2 ∧ leValue ((bytes.drop 40).take 4) = N * 2 * 2 := by
  cases hh : fileRead file 0 16 with
  | none =>
    simp only [main, hh] at hrun
    simp at hrun
  | some got =>
    have hgot := fileRead_zero file got hh
    subst hgot
    by_cases hoff : (parseHeader sz (fillBuf (List.replicate 16 0) (file.take 16))).offset < 0
    · simp only [main, hh, if_pos hoff] at hrun
      simp at hrun
    · cases hs : fileRead file
          (parseHeader sz (fillBuf (List.replicate 16 0) (file.take 16))).offset.toNat 6 with
      | none =>
        simp only [main, hh, if_neg hoff, hs] at hrun
        simp at hrun
      | some got6 =>
        cases hsig : sigInvalid (buildSig got6) with
        | true =>
          simp only [main, hh, if_neg hoff, hs, hsig, if_true] at hrun
          simp at hrun
        | false =>
          simp only [main, hh, if_neg hoff, hs, hsig, hch, hN, Bool.false_eq_true, if_false] at hrun
          obtain ⟨h1, _, _⟩ := mainLoop_stereo_done sz file 2
            (coefs (parseHeader sz (fillBuf (List.replicate 16 0) (file.take 16))).freq).1
            (coefs (parseHeader sz (fillBuf (List.replicate 16 0) (file.take 16))).freq).2
            (by decide) (N : Int).toNat
            { pos := (parseHeader sz (fillBuf (List.replicate 16 0) (file.take 16))).offset.toNat
                + got6.length
              buf := List.replicate (if (2 : Int) = 1 then 18 else 36) 0
              outbuf := List.replicate 64 0
              prev0 := { s1 := 0, s2 := 0 }
              prev1 := { s1 := 0, s2 := 0 }
              size := (N : Int)
              output := encodeWavHeader (mkWavHeader 2
                (parseHeader sz (fillBuf (List.replicate 16 0) (file.take 16))).freq (N : Int)) }
            0 (by simp) (by simp) (by show (0 : Int) ≤ (N : Int); omega)
            (by show (N : Int) < 2147483648; omega)
          obtain ⟨payload, hp1, hp2⟩ := h1 _ hrun rfl
          simp only [Option.some.injEq] at hp1
          obtain ⟨hlen, _, _, _, _, _, _, _, _, _, _, _, s40⟩ :=
            wavHeader_slices 2 (parseHeader sz (fillBuf (List.replicate 16 0) (file.take 16))).freq
              (N : Int)
          have hD : (mkWavHeader 2
              (parseHeader sz (fillBuf (List.replicate 16 0) (file.take 16))).freq
              (N : Int)).DataSize = N * 2 * 2 := by
            have e2 := toUint16_small 2 (by norm_num)
            have eN : toUint32 (N : Int) = N := by simp only [toUint32]; omega
            norm_num at e2
            simp only [mkWavHeader, e2, eN]
            omega
          have hpl : payload.length = 4 * N := by simpa using hp2
          rw [hp1]
          constructor
          · rw [List.length_append, hlen, hpl]; omega
          · rw [List.drop_append_of_le_length (by omega),
              List.take_append_of_le_length (by rw [List.length_drop, hlen]), s40, hD,
              leValue_le32 _ h4]

theorem stereo_payload_matches_header_witness :
    stereoFileOutput.length = 44 + 33 * 2 * 2
    ∧ leValue ((stereoFileOutput.drop 40).take 4) = 33 * 2 * 2 :=
  stereo_payload_matches_header .w64 fixedCoefs stereoFile stereoFileOutput 33
    (by decide) (by decide) (by decide) (by decide)

/-- C16 as stated fails.  On a 32-bit `int` a stereo file whose total-sample-count field
is `N = 2^31` gives a negative `size`: the loop body never runs and no sample follows the
header, where `N * channels = 2^32`.  In mono the loop writes `2 * N` samples: a mono
file of 64 samples gets 256 payload bytes while its header declares 128. -/
theorem payload_differs_from_declared :
    (parseHeader .w32 (hugeCountFile.take 16)).channels = 2
    ∧ (parseHeader .w32 (hugeCountFile.take 16)).size = -2147483648
    ∧ main .w32 fixedCoefs hugeCountFile
        = some { status := .done,
                 output := some (encodeWavHeader (mkWavHeader 2 44100 (-2147483648))) }
    ∧ (∃ bytes, main .w64 fixedCoefs (adxFile 1 64 (sampleBlock ++ zeroBlock))
          = some { status := .done, output := some bytes }
        ∧ bytes.length = 44 + 256
        ∧ leValue ((bytes.drop 40).take 4) = 128) := by
  refine ⟨?_, ?_, ?_, ⟨_, rfl, ?_, ?_⟩⟩ <;> decide

/-- C17 fails on the code: on a mono file of 37 samples the loop makes its 2 block reads,
and in the second pass, with `size = 5`, the block decode panics before `size -= wsize`:
the loop never reaches its exit and `size` is still 5.  The same count in stereo ends
with `Done!` after 2 block reads and `size = 0`. -/
theorem mono_tail_loop_does_not_exit :
    mainLoopCount .w64 monoTailFile 1 7334 (-3283) 37
        { pos := 24, buf := List.replicate 18 0, outbuf := List.replicate 64 0,
          prev0 := { s1 := 0, s2 := 0 }, prev1 := { s1 := 0, s2 := 0 }, size := 37,
          output := [] } 0
      = some (.panicked, 2, 5)
    ∧ (main .w64 fixedCoefs monoTailFile).map (fun o => o.status) = some .panicked
    ∧ mainLoopCount .w64 (adxFile 2 37 (stereoChunk ++ stereoChunk)) 2 7334 (-3283) 37
        { pos := 24, buf := List.replicate 36 0, outbuf := List.replicate 64 0,
          prev0 := { s1 := 0, s2 := 0 }, prev1 := { s1 := 0, s2 := 0 }, size := 37,
          output := [] } 0
      = some (.done, 2, 0) := by
  refine ⟨?_, ?_, ?_⟩ <;> decide

/-! ## The coefficient computation over the reals -/

theorem sqrt_two_gt_one : (1 : ℝ) < Real.sqrt 2 := by
  rw [show (1 : ℝ) = Real.sqrt 1 by simp]
  exact Real.sqrt_lt_sqrt (by norm_num) (by norm_num)

theorem coefB_pos : 0 < coefB := by
  unfold coefB; linarith [sqrt_two_gt_one]

theorem coefA_ge (freq : Int) : coefB ≤ coefA freq := by
  unfold coefA coefB coefZ
  linarith [Real.cos_le_one (2 * Real.pi * 500 / (freq : ℝ))]

theorem radicand_nonneg (freq : Int) :
    0 ≤ (coefA freq + coefB) * (coefA freq - coefB) := by
  have h1 := coefA_ge freq
  have h2 := coefB_pos
  exact mul_nonneg (by linarith) (by linarith)

theorem coefC_pos (freq : Int) : 0 < coefC freq := by
  have hb := coefB_pos
  have ha := coefA_ge freq
  have hr := radicand_nonneg freq
  have hs0 := Real.sqrt_nonneg ((coefA freq + coefB) * (coefA freq - coefB))
  have hsq := Real.sq_sqrt hr
  unfold coefC
  apply div_pos _ hb
  nlinarith

theorem coefC_le_one (freq : Int) : coefC freq ≤ 1 := by
  have hb := coefB_pos
  have ha := coefA_ge freq
  have hr := radicand_nonneg freq
  have hs0 := Real.sqrt_nonneg ((coefA freq + coefB) * (coefA freq - coefB))
  have hsq := Real.sq_sqrt hr
  unfold coefC
  rw [div_le_one hb]
  nlinarith

theorem coefC_eq_one_iff (freq : Int) : coefC freq = 1 ↔ coefZ freq = 1 := by
  have hb := coefB_pos
  have ha := coefA_ge freq
  have hr := radicand_nonneg freq
  have hs0 := Real.sqrt_nonneg ((coefA freq + coefB) * (coefA freq - coefB))
  have hsq := Real.sq_sqrt hr
  unfold coefC
  rw [div_eq_one_iff_eq (ne_of_gt hb)]
  constructor
  · intro h
    have hab : coefA freq = coefB := by nlinarith
    unfold coefA coefB at hab
    linarith
  · intro h
    have hab : coefA freq = coefB := by unfold coefA coefB; linarith
    rw [hab]
    simp

theorem coefZ_eq_one_iff (freq : Int) (h : 1 ≤ freq) :
    coefZ freq = 1 ↔ ∃ k : Int, (500 : ℝ) / (freq : ℝ) = (k : ℝ) := by
  have hf : (0 : ℝ) < (freq : ℝ) := by exact_mod_cast (by omega : (0 : Int) < freq)
  have hpi := Real.pi_pos
  unfold coefZ
  rw [Real.cos_eq_one_iff]
  constructor
  · rintro ⟨n, hn⟩
    refine ⟨n, ?_⟩
    have e : (n : ℝ) * (2 * Real.pi) = (500 / (freq : ℝ)) * (2 * Real.pi) := by
      rw [hn]; ring
    have := mul_right_cancel₀ (by positivity : (2 * Real.pi) ≠ 0) e
    linarith
  · rintro ⟨k, hk⟩
    refine ⟨k, ?_⟩
    rw [← hk]; ring

/-- C19: over the real numbers, for every sample rate `freq >= 1` the coefficient formula
is well defined (the radicand `(a+b)*(a-b)` is non-negative and `b` is non-zero),
`0 < c <= 1`, hence `0 <= coef1 <= 8192` and `-4096 <= coef2 <= -1`, and `c = 1` exactly
when `500 / freq` is an integer. -/
theorem real_coefficients_bounds (freq : Int) (h : 1 ≤ freq) :
    0 ≤ (coefA freq + coefB) * (coefA freq - coefB)
    ∧ coefB ≠ 0
    ∧ 0 < coefC freq ∧ coefC freq ≤ 1
    ∧ 0 ≤ realCoef1 freq ∧ realCoef1 freq ≤ 8192
    ∧ -4096 ≤ realCoef2 freq ∧ realCoef2 freq ≤ -1
    ∧ (coefC freq = 1 ↔ ∃ k : Int, (500 : ℝ) / (freq : ℝ) = (k : ℝ)) := by
  have hpos := coefC_pos freq
  have hle := coefC_le_one freq
  refine ⟨radicand_nonneg freq, ne_of_gt coefB_pos, hpos, hle, ?_, ?_, ?_, ?_, ?_⟩
  · exact Int.floor_nonneg.mpr (by positivity)
  · have h1 : ((⌊8192 * coefC freq⌋ : Int) : ℝ) ≤ 8192 * coefC freq := Int.floor_le _
    have h2 : ((realCoef1 freq : Int) : ℝ) ≤ 8192 := by
      unfold realCoef1; linarith
    exact_mod_cast h2
  · unfold realCoef2
    rw [Int.le_floor]
    push_cast
    nlinarith
  · unfold realCoef2
    have : ⌊-4096 * coefC freq * coefC freq⌋ < 0 := by
      rw [Int.floor_lt]
      push_cast
      nlinarith
    omega
  · rw [coefC_eq_one_iff, coefZ_eq_one_iff freq h]

theorem real_coefficients_bounds_witness :
    0 ≤ (coefA 44100 + coefB) * (coefA 44100 - coefB)
    ∧ coefB ≠ 0
    ∧ 0 < coefC 44100 ∧ coefC 44100 ≤ 1
    ∧ 0 ≤ realCoef1 44100 ∧ realCoef1 44100 ≤ 8192
    ∧ -4096 ≤ realCoef2 44100 ∧ realCoef2 44100 ≤ -1
    ∧ (coefC 44100 = 1 ↔ ∃ k : Int, (500 : ℝ) / ((44100 : Int) : ℝ) = (k : ℝ)) :=
  real_coefficients_bounds 44100 (by decide)

theorem coefZ_44100_bounds : 0.99746 < coefZ 44100 ∧ coefZ 44100 < 0.99747 := by
  have h1 := Real.pi_gt_d6
  have h2 := Real.pi_lt_d6
  have hx0 : 0 ≤ 2 * Real.pi * 500 / ((44100 : Int) : ℝ) := by positivity
  have hxl : 0.0712 < 2 * Real.pi * 500 / ((44100 : Int) : ℝ) := by
    rw [lt_div_iff₀ (by norm_num)]; push_cast; linarith
  have hxu : 2 * Real.pi * 500 / ((44100 : Int) : ℝ) < 0.07124 := by
    rw [div_lt_iff₀ (by norm_num)]; push_cast; linarith
  have hb := Real.cos_bound (x := 2 * Real.pi * 500 / ((44100 : Int) : ℝ))
    (by rw [abs_of_nonneg hx0]; linarith)
  rw [abs_of_nonneg hx0, abs_le] at hb
  unfold coefZ
  generalize 2 * Real.pi * 500 / ((44100 : Int) : ℝ) = x at *
  have hx2l : 0.0712 ^ 2 < x ^ 2 := by nlinarith
  have hx2u : x ^ 2 < 0.07124 ^ 2 := by nlinarith
  have hx4 : x ^ 4 < 0.07124 ^ 4 := by
    have : x ^ 4 = (x ^ 2) ^ 2 := by ring
    rw [this]
    have : (0.07124 : ℝ) ^ 4 = (0.07124 ^ 2) ^ 2 := by ring
    rw [this]
    nlinarith [sq_nonneg x]
  constructor
  · nlinarith [hb.1]
  · nlinarith [hb.2]

/-- C14 (amended): for sample rate 44100, over the real numbers, the intermediate value
`z = cos(2*pi*500/44100)` lies between 0.99746 and 0.99747 (its decimal expansion begins
0.99746), and `coef1 = floor(8192*c)`, `coef2 = floor(-4096*c^2)` with
`c = (a - sqrt((a+b)*(a-b)))/b`, `a = sqrt(2) - z`, `b = sqrt(2) - 1`. -/
theorem coefficients_44100 :
    0.99746 < coefZ 44100 ∧ coefZ 44100 < 0.99747
    ∧ coefZ 44100 = Real.cos (2 * Real.pi * 500 / 44100)
    ∧ coefA 44100 = Real.sqrt 2 - coefZ 44100
    ∧ coefB = Real.sqrt 2 - 1
    ∧ coefC 44100
        = (coefA 44100 - Real.sqrt ((coefA 44100 + coefB) * (coefA 44100 - coefB))) / coefB
    ∧ realCoef1 44100 = ⌊8192 * coefC 44100⌋
    ∧ realCoef2 44100 = ⌊-4096 * coefC 44100 ^ 2⌋ := by
  refine ⟨coefZ_44100_bounds.1, coefZ_44100_bounds.2, ?_, rfl, rfl, rfl, rfl, ?_⟩
  · unfold coefZ; norm_num
  · unfold realCoef2
    congr 1
    ring

/-- C14 as stated fails: the decimal expansion of `z = cos(2*pi*500/44100)` does not
begin 0.99287; `z` is larger than 0.99746. -/
theorem coefZ_44100_not_099287 :
    ¬ (0.99287 ≤ coefZ 44100 ∧ coefZ 44100 < 0.99288) := by
  rintro ⟨_, h⟩
  have := coefZ_44100_bounds.1
  linarith

end Adx2wav
